import Mathlib

/-!
# Verification of the electrs mempool indexing core

Shallow embedding of `src/new_index/mempool.rs` (the `Mempool` aggregate:
txstore / feeinfo / history / edges / recent and its operations `add`,
`remove`, `history`, `history_group`, `utxo`, `txids_page`, `lookup_txos`,
`add_by_txid`).

Modelling conventions:
* `Txid`, `Script`, `ScriptHash` are abstracted to `Nat` (the code treats
  them as opaque, linearly ordered / hashable byte strings).
* `BTreeMap` (txstore) is modelled as an association list kept sorted by
  key; `HashMap`s are association lists with insert-replace semantics;
  lookups are first-match.
* External collaborators (ChainQuery, the txid hash, script hashing,
  spendability, vsize) are fields of a context `Ctx`; the mempool code
  under verification only calls them.
* Code of the repository that is referenced from `mempool.rs` but absent
  from the provided sources (`util::has_prevout`, `util::extract_tx_prevouts`,
  `new_index::TxHistoryInfo`, `util::fees::TxFeeInfo`) is modelled from the
  specification, as marked on each definition.
-/

abbrev Txid := Nat
abbrev Script := Nat
abbrev ScriptHash := Nat

/-- `OutPoint`: pair (txid, vout) identifying one transaction output. -/
structure OutPoint where
  txid : Txid
  vout : Nat
deriving DecidableEq, Repr

/-- `TxIn` from `opcat_layer/blockdata/transaction.rs`: previous_output,
script_sig, sequence. -/
structure TxIn where
  previous_output : OutPoint
  script_sig : Script
  sequence : Nat
deriving DecidableEq, Repr

/-- `TxOut` from `opcat_layer/blockdata/transaction.rs`: value, script_pubkey
and the OPCAT-specific opaque `data` field. -/
structure TxOut where
  value : Nat
  script_pubkey : Script
  data : Nat
deriving DecidableEq, Repr

/-- `Transaction` from `opcat_layer/blockdata/transaction.rs`. -/
structure Transaction where
  version : Int
  lock_time : Nat
  input : List TxIn
  output : List TxOut
deriving DecidableEq, Repr

/-- Modelled from the spec (`new_index::FundingInfo`, absent from src/):
one record per spendable output: txid, vout, value. -/
structure FundingInfo where
  txid : Txid
  vout : Nat
  value : Nat
deriving DecidableEq, Repr

/-- Modelled from the spec (`new_index::SpendingInfo`, absent from src/):
txid, vin, prev_txid, prev_vout, value. -/
structure SpendingInfo where
  txid : Txid
  vin : Nat
  prev_txid : Txid
  prev_vout : Nat
  value : Nat
deriving DecidableEq, Repr

/-- Modelled from the spec (`new_index::TxHistoryInfo`, absent from src/):
tagged variant Funding | Spending. -/
inductive TxHistoryInfo where
  | funding : FundingInfo → TxHistoryInfo
  | spending : SpendingInfo → TxHistoryInfo
deriving DecidableEq, Repr

/-- Modelled from the spec: every `TxHistoryInfo` variant exposes `get_txid()`. -/
def TxHistoryInfo.get_txid : TxHistoryInfo → Txid
  | .funding i => i.txid
  | .spending i => i.txid

/-- Modelled from the spec (`util::fees::TxFeeInfo`, absent from src/):
`fee = Σ prevout.value − Σ output.value`; only the fields a claim can
observe are carried (`fee_per_vbyte`, a float, is observed by no claim). -/
structure TxFeeInfo where
  fee : Nat
  vsize : Nat
deriving DecidableEq, Repr

/-- `TxOverview` from `mempool.rs` (opcat_layer variant: no `value` field). -/
structure TxOverview where
  txid : Txid
  fee : Nat
  vsize : Nat
deriving DecidableEq, Repr

/-- Modelled from the spec (`new_index::Utxo`, absent from src/): txid, vout,
value and the OPCAT `data` field copied from the looked-up txo; `confirmed`
is constantly `None` for mempool results and is omitted. -/
structure Utxo where
  txid : Txid
  vout : Nat
  value : Nat
  data : Nat
deriving DecidableEq, Repr

/-- External collaborators and configuration consumed by the mempool core:
the ChainCodec txid hash, `compute_script_hash`, `is_spendable`, the
`index_unspendables` config flag, ChainQuery's confirmed-output lookup,
the ChainCodec vsize, and the `recent_txs_size` capacity. -/
structure Ctx where
  txidOf : Transaction → Txid
  compute_script_hash : Script → ScriptHash
  spendableB : TxOut → Bool
  index_unspendables : Bool
  chain_lookup : OutPoint → Option TxOut
  vsizeOf : Transaction → Nat
  recent_txs_size : Nat

/-- The `Mempool` aggregate state (`mempool.rs`): txstore (ordered map),
feeinfo, history, edges (hash maps), recent (bounded deque). -/
structure Mempool where
  txstore : List (Txid × Transaction)
  feeinfo : List (Txid × TxFeeInfo)
  history : List (ScriptHash × List TxHistoryInfo)
  edges : List (OutPoint × (Txid × Nat))
  recent : List TxOverview
deriving Repr

/-- First-match association-list lookup (models `HashMap::get` /
`BTreeMap::get`). -/
def lookupA {κ α : Type} [DecidableEq κ] : List (κ × α) → κ → Option α
  | [], _ => none
  | p :: rest, k => if p.1 = k then some p.2 else lookupA rest k

/-- `contains_key`. -/
def containsA {κ α : Type} [DecidableEq κ] (m : List (κ × α)) (k : κ) : Bool :=
  (lookupA m k).isSome

/-- `HashMap::insert`: replace any existing binding for the key. -/
def insertA {κ α : Type} [DecidableEq κ] (m : List (κ × α)) (k : κ) (v : α) :
    List (κ × α) :=
  (k, v) :: m.filter (fun p => decide (p.1 ≠ k))

/-- `BTreeMap::insert` on the key-sorted representation: place the new
binding at its ordered position, replacing an equal key. -/
def tsInsert : List (Txid × Transaction) → Txid → Transaction →
    List (Txid × Transaction)
  | [], k, v => [(k, v)]
  | p :: rest, k, v =>
    if k < p.1 then (k, v) :: p :: rest
    else if k = p.1 then (k, v) :: rest
    else p :: tsInsert rest k v

/-- `self.history.entry(scripthash).or_default().push(entry)`: append to the
bucket, creating it on demand. -/
def histPush (m : List (ScriptHash × List TxHistoryInfo)) (k : ScriptHash)
    (e : TxHistoryInfo) : List (ScriptHash × List TxHistoryInfo) :=
  match lookupA m k with
  | some b => insertA m k (b ++ [e])
  | none => insertA m k [e]

/-- The scan of `itertools::unique()`: emit an element the first time it is
seen, tracking the already-seen set. -/
def dedupFirstAux {α : Type} [DecidableEq α] (seen : List α) :
    List α → List α
  | [] => []
  | x :: xs =>
    if x ∈ seen then dedupFirstAux seen xs
    else x :: dedupFirstAux (x :: seen) xs

/-- `itertools::unique()`: deduplicate keeping first occurrences. -/
def dedupFirst {α : Type} [DecidableEq α] (l : List α) : List α :=
  dedupFirstAux [] l

/-- Modelled from the spec: the coinbase sentinel previous_output is the
all-zero txid (modelled `0`) with vout `0xFFFFFFFF`. -/
def OutPoint.isNull (op : OutPoint) : Bool :=
  decide (op.txid = 0) && decide (op.vout = 4294967295)

/-- Modelled from the spec (`util::has_prevout`, absent from src/): true
exactly for non-sentinel inputs. -/
def has_prevout (txi : TxIn) : Bool :=
  ! txi.previous_output.isNull

/-- Resolution scan of `extract_tx_prevouts`: every listed (non-sentinel)
input must find its prevout in `txos`, else the whole lookup fails. -/
def extractGo (txos : List (OutPoint × TxOut)) :
    List (Nat × TxIn) → Option (List (Nat × TxOut))
  | [] => some []
  | p :: rest =>
    match lookupA txos p.2.previous_output, extractGo txos rest with
    | some t, some l => some ((p.1, t) :: l)
    | _, _ => none

/-- Modelled from the spec (`util::extract_tx_prevouts`, absent from src/):
collect `(vin, prevout)` for every non-sentinel input of `tx` from the
resolver result `txos`; fail if any non-sentinel input has no entry. -/
def extract_tx_prevouts (tx : Transaction) (txos : List (OutPoint × TxOut)) :
    Option (List (Nat × TxOut)) :=
  extractGo txos (tx.input.enum.filter (fun p => has_prevout p.2))

/-- Modelled from the spec (`TxFeeInfo::new`, absent from src/):
`fee = Σ resolved prevout values − Σ output values` (the network argument
only affects the float fee rate, which is not modelled). -/
def TxFeeInfo.new (ctx : Ctx) (tx : Transaction)
    (prevouts : List (Nat × TxOut)) : TxFeeInfo :=
  { fee := (prevouts.map (fun p => p.2.value)).sum
      - (tx.output.map (fun o => o.value)).sum
    vsize := ctx.vsizeOf tx }

/-- `Mempool::lookup_txos`: confirmed outputs from ChainQuery, then for each
unanswered outpoint the in-mempool output `txstore[op.txid].outputs[op.vout]`
when it exists (a miss is only warned about); the two maps have disjoint
key sets, so representing `extend` by append is exact. -/
def Mempool.lookup_txos (ctx : Ctx) (st : Mempool)
    (outpoints : List OutPoint) : List (OutPoint × TxOut) :=
  let confirmed_txos := outpoints.filterMap
    (fun op => (ctx.chain_lookup op).map (fun t => (op, t)))
  let mempool_txos := (outpoints.filter
      (fun op => ! containsA confirmed_txos op)).filterMap
    (fun op => ((lookupA st.txstore op.txid).bind
        (fun tx => tx.output.get? op.vout)).map (fun t => (op, t)))
  confirmed_txos ++ mempool_txos

/-- `Mempool::lookup_txo`: the one-element form of `lookup_txos`. -/
def Mempool.lookup_txo (ctx : Ctx) (st : Mempool) (op : OutPoint) :
    Option TxOut :=
  lookupA (Mempool.lookup_txos ctx st [op]) op

/-- `Mempool::get_prevouts`: the set of non-sentinel previous_outputs across
every input of the given (stored) transactions (`BTreeSet` collect: the set
is deduplicated; only its membership is ever consumed). -/
def Mempool.get_prevouts (st : Mempool) (txids : List Txid) : List OutPoint :=
  dedupFirst ((txids.filterMap (lookupA st.txstore)).flatMap
    (fun tx => (tx.input.filter has_prevout).map (fun txi => txi.previous_output)))

/-- Phase 1 of `Mempool::add`: insert each transaction into txstore
(`BTreeMap::insert` replaces an existing binding); record the txid in the
working list only when the key was previously absent. -/
def insertPhase (ctx : Ctx) : List Transaction → List (Txid × Transaction) →
    List Txid → List (Txid × Transaction) × List Txid
  | [], store, ids => (store, ids)
  | tx :: rest, store, ids =>
    if containsA store (ctx.txidOf tx) then
      insertPhase ctx rest (tsInsert store (ctx.txidOf tx) tx) ids
    else
      insertPhase ctx rest (tsInsert store (ctx.txidOf tx) tx) (ids ++ [ctx.txidOf tx])

/-- The placeholder `TxIn` for the unreachable `unwrap` on an input index
produced by `enumerate` (always in range in the source). -/
def defaultTxIn : TxIn :=
  { previous_output := { txid := 0, vout := 0 }, script_sig := 0, sequence := 0 }

/-- The spending-side `(ScriptHash, TxHistoryInfo)` pairs of phase 3: one per
resolved (non-sentinel) input, hashed on the prevout's script. -/
def spendingPairs (ctx : Ctx) (txid : Txid) (tx : Transaction)
    (prevouts : List (Nat × TxOut)) : List (ScriptHash × TxHistoryInfo) :=
  prevouts.map (fun p =>
    (ctx.compute_script_hash p.2.script_pubkey,
     TxHistoryInfo.spending
       { txid := txid
         vin := p.1
         prev_txid := ((tx.input.get? p.1).getD defaultTxIn).previous_output.txid
         prev_vout := ((tx.input.get? p.1).getD defaultTxIn).previous_output.vout
         value := p.2.value }))

/-- The funding-side `(ScriptHash, TxHistoryInfo)` pairs of phase 3: one per
output passing the spendability rule, hashed on the output's script. -/
def fundingPairs (ctx : Ctx) (txid : Txid) (tx : Transaction) :
    List (ScriptHash × TxHistoryInfo) :=
  (tx.output.enum.filter (fun p => ctx.spendableB p.2 || ctx.index_unspendables)).map
    (fun p => (ctx.compute_script_hash p.2.script_pubkey,
      TxHistoryInfo.funding { txid := txid, vout := p.1, value := p.2.value }))

/-- Phase 3 body of `Mempool::add` for one admitted txid: resolve prevouts
(skip on failure), push the recent overview, record feeinfo, append the
funding-then-spending history pairs, and insert one spend edge per input
(the source iterates `tx.input` unfiltered). Returns whether the
transaction was indexed. The two `expect`/`unwrap` calls of the source
(`missing tx from txstore`, input index from `enumerate`) are unreachable
and modelled by a skip and a default. -/
def indexTx (ctx : Ctx) (txos : List (OutPoint × TxOut)) (st : Mempool)
    (txid : Txid) : Mempool × Bool :=
  match lookupA st.txstore txid with
  | none => (st, false)
  | some tx =>
    match extract_tx_prevouts tx txos with
    | none => (st, false)
    | some prevouts =>
      ({ st with
          feeinfo := insertA st.feeinfo txid (TxFeeInfo.new ctx tx prevouts)
          history := (fundingPairs ctx txid tx ++
              spendingPairs ctx txid tx prevouts).foldl
            (fun h pr => histPush h pr.1 pr.2) st.history
          edges := tx.input.enum.foldl
            (fun es p => insertA es p.2.previous_output (txid, p.1)) st.edges
          recent := (({ txid := txid
                        fee := (TxFeeInfo.new ctx tx prevouts).fee
                        vsize := (TxFeeInfo.new ctx tx prevouts).vsize } :
            TxOverview) :: st.recent).take ctx.recent_txs_size }, true)

/-- One step of the phase-3 loop of `Mempool::add`: run `indexTx` on the
accumulated state and bump `processed_count` when the transaction was
indexed. -/
def addStep (ctx : Ctx) (txos : List (OutPoint × TxOut)) (acc : Mempool × Nat)
    (txid : Txid) : Mempool × Nat :=
  ((indexTx ctx txos acc.1 txid).1,
   acc.2 + (if (indexTx ctx txos acc.1 txid).2 then 1 else 0))

/-- `Mempool::add`: phase 1 admits to txstore, phase 2 resolves the union of
non-sentinel prevouts, phase 3 indexes each admitted transaction in
admission order; returns the new state and `count_indexed`. -/
def Mempool.add (ctx : Ctx) (st : Mempool) (txs : List Transaction) :
    Mempool × Nat :=
  let pr := insertPhase ctx txs st.txstore []
  let st1 : Mempool := { st with txstore := pr.1 }
  let txos := Mempool.lookup_txos ctx st1 (Mempool.get_prevouts st1 pr.2)
  pr.2.foldl (addStep ctx txos) (st1, 0)

/-- Observer: the txstore produced by phase 1 of `add`. -/
def Mempool.addStore (ctx : Ctx) (st : Mempool) (txs : List Transaction) :
    List (Txid × Transaction) :=
  (insertPhase ctx txs st.txstore []).1

/-- Observer: the working list of newly admitted txids of `add`. -/
def Mempool.addAdmitted (ctx : Ctx) (st : Mempool) (txs : List Transaction) :
    List Txid :=
  (insertPhase ctx txs st.txstore []).2

/-- Observer: the resolver result of phase 2 of `add`. -/
def Mempool.addTxos (ctx : Ctx) (st : Mempool) (txs : List Transaction) :
    List (OutPoint × TxOut) :=
  Mempool.lookup_txos ctx { st with txstore := Mempool.addStore ctx st txs }
    (Mempool.get_prevouts { st with txstore := Mempool.addStore ctx st txs }
      (Mempool.addAdmitted ctx st txs))

/-- `Mempool::remove`: drop the ids from txstore and feeinfo, retain only
history entries whose txid survives (dropping emptied buckets), retain only
edges whose value-txid survives; `recent` is untouched. The source panics if
an id is absent from txstore; filtering an absent id is a no-op here. -/
def Mempool.remove (st : Mempool) (ids : List Txid) : Mempool :=
  { txstore := st.txstore.filter (fun p => decide (p.1 ∉ ids))
    feeinfo := st.feeinfo.filter (fun p => decide (p.1 ∉ ids))
    history := (st.history.map (fun b =>
        (b.1, b.2.filter (fun e => decide (e.get_txid ∉ ids))))).filter
      (fun b => ! b.2.isEmpty)
    edges := st.edges.filter (fun p => decide (p.2.1 ∉ ids))
    recent := st.recent }

/-- The txid pipeline shared by `Mempool::_history` and
`Mempool::history_group`: map entries to txids, `unique()` (first
occurrences), skip up to and including the first occurrence of
`last_seen_txid` when given, take `limit`. -/
def historyPipeline (entries : List TxHistoryInfo) (last_seen : Option Txid)
    (limit : Nat) : List Txid :=
  (match last_seen with
   | none => dedupFirst (entries.map TxHistoryInfo.get_txid)
   | some l => ((dedupFirst (entries.map TxHistoryInfo.get_txid)).dropWhile
       (fun t => decide (t ≠ l))).drop 1).take limit

/-- `Mempool::_history`: the txid pipeline materialized through txstore
(the source `expect`s each lookup; the panic is unreachable under the
index-closure invariant and a miss is modelled by omission). -/
def Mempool.histMaterialize (st : Mempool) (entries : List TxHistoryInfo)
    (last_seen : Option Txid) (limit : Nat) : List Transaction :=
  (historyPipeline entries last_seen limit).filterMap (lookupA st.txstore)

/-- `Mempool::history` (named `historyQuery` here because the state field is
already named `history`). -/
def Mempool.historyQuery (st : Mempool) (scripthash : ScriptHash)
    (last_seen : Option Txid) (limit : Nat) : List Transaction :=
  match lookupA st.history scripthash with
  | none => []
  | some entries => st.histMaterialize entries last_seen limit

/-- `Mempool::history_group`: concatenate the history buckets of the given
scripthashes in the given order (missing buckets skipped), then the same
pipeline. -/
def Mempool.history_group (st : Mempool) (scripthashes : List ScriptHash)
    (last_seen : Option Txid) (limit : Nat) : List Transaction :=
  st.histMaterialize
    ((scripthashes.filterMap (lookupA st.history)).flatten) last_seen limit

/-- `Mempool::has_spend`. -/
def Mempool.has_spend (st : Mempool) (op : OutPoint) : Bool :=
  containsA st.edges op

/-- The comparator of `Mempool::utxo`'s deterministic sort: txid descending,
then vout descending. -/
def utxoLe (a b : Utxo) : Bool :=
  decide (b.txid < a.txid ∨ (b.txid = a.txid ∧ b.vout ≤ a.vout))

/-- Ordered insertion (ties resolved in favour of the inserted, i.e. earlier,
element — the stability discipline of Rust's `sort_by`). -/
def insertSorted {α : Type} (le : α → α → Bool) (x : α) : List α → List α
  | [] => [x]
  | y :: ys => if le x y then x :: y :: ys else y :: insertSorted le x ys

/-- `Vec::sort_by`, modelled as stable insertion sort (any two stable sorts
of the same total preorder agree pointwise). -/
def sortByB {α : Type} (le : α → α → Bool) : List α → List α
  | [] => []
  | x :: xs => insertSorted le x (sortByB le xs)

/-- The funding-entry collection stage of `Mempool::utxo`: the funding
entries of the script's bucket (each resolved through `lookup_txo` for its
OPCAT `data` field, an unresolvable entry being dropped by the `?`), minus
the outpoints spent within the mempool. A missing bucket yields `[]`, as
the source's early return does. -/
def Mempool.utxoCandidates (ctx : Ctx) (st : Mempool) (scripthash : ScriptHash) :
    List Utxo :=
  (((lookupA st.history scripthash).getD []).filterMap (fun e =>
      match e with
      | TxHistoryInfo.funding info =>
        (Mempool.lookup_txo ctx st { txid := info.txid, vout := info.vout }).map
          (fun txo => { txid := info.txid
                        vout := info.vout
                        value := info.value
                        data := txo.data })
      | TxHistoryInfo.spending _ => none)).filter
    (fun u => ! st.has_spend { txid := u.txid, vout := u.vout })

/-- First stage of `Mempool::utxo`: the candidates sorted by txid descending
then vout descending. -/
def Mempool.utxoSorted (ctx : Ctx) (st : Mempool) (scripthash : ScriptHash) :
    List Utxo :=
  sortByB utxoLe (Mempool.utxoCandidates ctx st scripthash)

/-- `Mempool::utxo`: cursor filtering over the sorted list — locate
`after_outpoint`, return the slice strictly after it capped at `limit`;
when the cursor is absent (or not given) return the first `limit` items. -/
def Mempool.utxo (ctx : Ctx) (st : Mempool) (scripthash : ScriptHash)
    (after_outpoint : Option OutPoint) (limit : Nat) : List Utxo :=
  match after_outpoint with
  | some ap =>
    match (Mempool.utxoSorted ctx st scripthash).findIdx? (fun u =>
        decide (u.txid = ap.txid) && decide (u.vout = ap.vout)) with
    | some pos => ((Mempool.utxoSorted ctx st scripthash).drop (pos + 1)).take limit
    | none => (Mempool.utxoSorted ctx st scripthash).take limit
  | none => (Mempool.utxoSorted ctx st scripthash).take limit

/-- `Mempool::txids_page`: the first `n` txstore keys strictly greater than
`start` (all keys when `start` is `None`), in key order; on the key-sorted
representation the `BTreeMap::range` is the filtered key list. -/
def Mempool.txids_page (st : Mempool) (n : Nat) (start : Option Txid) :
    List Txid :=
  (match start with
   | none => st.txstore.map Prod.fst
   | some s => (st.txstore.map Prod.fst).filter (fun k => decide (s < k))).take n

/-- The page iteration of the spec's paging-determinism property: call
`txids_page n start`, then repeat from the last key of the returned page
until a page comes back empty (fuel-bounded). -/
def Mempool.txidsPages (st : Mempool) (n : Nat) :
    Nat → Option Txid → List Txid
  | 0, _ => []
  | fuel + 1, start =>
    match (st.txids_page n start).getLast? with
    | none => []
    | some l => st.txids_page n start ++ st.txidsPages n fuel (some l)

/-- `Mempool::add_by_txid`: nothing to do when the txid is stored; a failed
daemon fetch is silently swallowed (`if let Ok`); otherwise `add([tx])`,
surfacing the missing-parents domain error (modelled `false`) exactly when
it indexed nothing. -/
def Mempool.add_by_txid (ctx : Ctx) (st : Mempool)
    (fetch : Txid → Option Transaction) (txid : Txid) : Mempool × Bool :=
  if containsA st.txstore txid then (st, true)
  else
    match fetch txid with
    | none => (st, true)
    | some tx =>
      if (Mempool.add ctx st [tx]).2 = 0 then ((Mempool.add ctx st [tx]).1, false)
      else ((Mempool.add ctx st [tx]).1, true)

/-- Whether an admitted txid resolves in phase 3 of `add` (observer used to
state the partial-resolution claims). -/
def resolvedB (txos : List (OutPoint × TxOut))
    (store : List (Txid × Transaction)) (t : Txid) : Bool :=
  match lookupA store t with
  | none => false
  | some tx => (extract_tx_prevouts tx txos).isSome

/-- Edge well-formedness at one edge: the spender is stored and its `vin`-th
input consumes exactly the edge's key outpoint. -/
def edgeOk (store : List (Txid × Transaction)) (op : OutPoint) (t : Txid)
    (vin : Nat) : Prop :=
  ((lookupA store t).bind (fun tx => tx.input.get? vin)).map
    (fun txi => txi.previous_output) = some op

/-- Spec invariant 1 restricted to history: every history entry's txid is a
txstore key. -/
def Mempool.histClosed (st : Mempool) : Prop :=
  ∀ b ∈ st.history, ∀ e ∈ b.2, containsA st.txstore e.get_txid = true

/-- Spec invariant 2: every edge's spender txid is stored and its input at
`vin` consumes the edge's key. -/
def Mempool.edgesClosed (st : Mempool) : Prop :=
  ∀ p ∈ st.edges, edgeOk st.txstore p.1 p.2.1 p.2.2

/-- The index-closure invariant of the claim set. -/
def Mempool.indexClosed (st : Mempool) : Prop :=
  st.histClosed ∧ st.edgesClosed

/-- Hash-consistency of an `add` batch with the current store: an incoming
transaction whose txid is already a txstore key is the stored transaction
(true for a collision-free txid hash; `BTreeMap::insert` silently replaces
the stored value otherwise). -/
def noClash (ctx : Ctx) (store : List (Txid × Transaction))
    (txs : List Transaction) : Prop :=
  ∀ tx ∈ txs, (lookupA store (ctx.txidOf tx)).getD tx = tx

/-- Spec invariant 4: `history` never contains an empty bucket. -/
def Mempool.noEmptyBuckets (st : Mempool) : Prop :=
  ∀ b ∈ st.history, b.2 ≠ []



/-- Observer: the history entries recorded for txid `t` under scripthash
`sh` (empty when the bucket is absent). -/
def Mempool.histEntriesFor (st : Mempool) (sh : ScriptHash) (t : Txid) :
    List TxHistoryInfo :=
  ((lookupA st.history sh).getD []).filter (fun e => decide (e.get_txid = t))

/-- Observer: how many recent-overview entries mention txid `t`. -/
def Mempool.recentCountFor (st : Mempool) (t : Txid) : Nat :=
  st.recent.countP (fun ov => decide (ov.txid = t))

/-- Observer: the deduplicated-by-first-occurrence txid sequence of a
script's history bucket. -/
def Mempool.dedupTxids (st : Mempool) (sh : ScriptHash) : List Txid :=
  dedupFirst (((lookupA st.history sh).getD []).map TxHistoryInfo.get_txid)

/-- Decidable form of "every funding entry of the bucket resolves through
`lookup_txo`" — guaranteed by the index-closure invariant, and required
because the OPCAT variant of `utxo` silently drops a funding entry whose
txo cannot be looked up. -/
def fundingResolves (ctx : Ctx) (st : Mempool) (sh : ScriptHash) : Bool :=
  ((lookupA st.history sh).getD []).all (fun e =>
    match e with
    | TxHistoryInfo.funding i =>
      (Mempool.lookup_txo ctx st { txid := i.txid, vout := i.vout }).isSome
    | TxHistoryInfo.spending _ => true)

/-! ### Concrete objects used to exercise the theorems -/

/-- A concrete context: the txid hash is read off the `lock_time` field
(injective on the sample transactions), script hashing is the identity,
everything is spendable, ChainQuery knows nothing. -/
def ctxW : Ctx :=
  { txidOf := fun tx => tx.lock_time
    compute_script_hash := fun s => s
    spendableB := fun _ => true
    index_unspendables := false
    chain_lookup := fun _ => none
    vsizeOf := fun _ => 1
    recent_txs_size := 10 }

/-- A context whose ChainQuery resolves exactly the confirmed outpoint
`(100, 0)`. -/
def ctxC : Ctx :=
  { txidOf := fun tx => tx.lock_time
    compute_script_hash := fun s => s
    spendableB := fun _ => true
    index_unspendables := false
    chain_lookup := fun op =>
      if op = { txid := 100, vout := 0 } then
        some { value := 10, script_pubkey := 3, data := 0 }
      else none
    vsizeOf := fun _ => 1
    recent_txs_size := 10 }

/-- The empty mempool. -/
def stEmpty : Mempool :=
  { txstore := [], feeinfo := [], history := [], edges := [], recent := [] }

/-- A coinbase-style transaction: single sentinel input, one 50-unit output
to script 5 (the spec's S2 shape). -/
def txCB : Transaction :=
  { version := 1
    lock_time := 7
    input := [{ previous_output := { txid := 0, vout := 4294967295 },
                script_sig := 0, sequence := 0 }]
    output := [{ value := 50, script_pubkey := 5, data := 0 }] }

/-- A transaction spending `txCB`'s output 0 to script 6 (the spec's S3
shape). -/
def txT2 : Transaction :=
  { version := 1
    lock_time := 9
    input := [{ previous_output := { txid := 7, vout := 0 },
                script_sig := 0, sequence := 0 }]
    output := [{ value := 49, script_pubkey := 6, data := 0 }] }

/-- A transaction spending `txT2`'s output 0 to script 8. -/
def txT3 : Transaction :=
  { version := 1
    lock_time := 11
    input := [{ previous_output := { txid := 9, vout := 0 },
                script_sig := 0, sequence := 0 }]
    output := [{ value := 48, script_pubkey := 8, data := 0 }] }

/-- The state after ingesting `txCB` and `txT2` into the empty mempool. -/
def stS3 : Mempool := (Mempool.add ctxW stEmpty [txCB, txT2]).1

/-! ## Association-list lemmas -/

theorem lookupA_filterKeep {κ α : Type} [DecidableEq κ] (m : List (κ × α))
    (q : κ → Bool) (k : κ) (hq : q k = true) :
    lookupA (m.filter (fun p => q p.1)) k = lookupA m k := by
  induction m with
  | nil => rfl
  | cons p rest ih =>
    obtain ⟨a, b⟩ := p
    rw [List.filter_cons]
    by_cases hpk : a = k
    · subst hpk
      simp only [hq, if_true, lookupA, reduceIte]
    · by_cases hq2 : q a = true
      · rw [if_pos hq2]
        simp only [lookupA, hpk, reduceIte, ih]
      · rw [if_neg hq2, ih]
        simp only [lookupA, hpk, reduceIte]

theorem lookupA_filterNotIn {κ α : Type} [DecidableEq κ] (m : List (κ × α))
    (ids : List κ) (k : κ) (hk : k ∉ ids) :
    lookupA (m.filter (fun p => decide (p.1 ∉ ids))) k = lookupA m k :=
  lookupA_filterKeep m (fun x => decide (x ∉ ids)) k (decide_eq_true hk)

theorem lookupA_insertA {κ α : Type} [DecidableEq κ] (m : List (κ × α))
    (k : κ) (v : α) (k' : κ) :
    lookupA (insertA m k v) k' = if k' = k then some v else lookupA m k' := by
  unfold insertA
  by_cases h : k' = k
  · subst h; simp [lookupA]
  · rw [if_neg h]
    have h1 : lookupA ((k, v) :: List.filter (fun p => decide (p.1 ≠ k)) m) k' =
        lookupA (List.filter (fun p => decide (p.1 ≠ k)) m) k' := by
      simp only [lookupA]
      rw [if_neg (Ne.symm h)]
    rw [h1]
    exact lookupA_filterKeep m (fun x => decide (x ≠ k)) k' (decide_eq_true h)

theorem lookupA_mem {κ α : Type} [DecidableEq κ] {m : List (κ × α)} {k : κ}
    {v : α} (h : lookupA m k = some v) : (k, v) ∈ m := by
  induction m with
  | nil => simp [lookupA] at h
  | cons p rest ih =>
    obtain ⟨a, b⟩ := p
    by_cases hp : a = k
    · subst hp
      simp only [lookupA, if_true, Option.some.injEq, reduceIte] at h
      subst h
      exact List.mem_cons_self _ _
    · simp only [lookupA, hp, reduceIte] at h
      exact List.mem_cons_of_mem _ (ih h)

theorem mem_insertA {κ α : Type} [DecidableEq κ] {m : List (κ × α)} {k : κ}
    {v : α} {p : κ × α} (h : p ∈ insertA m k v) : p = (k, v) ∨ p ∈ m := by
  unfold insertA at h
  rcases List.mem_cons.1 h with h1 | h1
  · exact Or.inl h1
  · exact Or.inr (List.mem_of_mem_filter h1)

theorem lookupA_tsInsert (store : List (Txid × Transaction)) (k : Txid)
    (v : Transaction) (k' : Txid) :
    lookupA (tsInsert store k v) k' = if k' = k then some v else lookupA store k' := by
  induction store with
  | nil =>
    by_cases h : k' = k
    · subst h; simp [tsInsert, lookupA]
    · simp [tsInsert, lookupA, Ne.symm h, h]
  | cons p rest ih =>
    obtain ⟨a, b⟩ := p
    unfold tsInsert
    by_cases h1 : k < a
    · rw [if_pos h1]
      by_cases h : k' = k
      · subst h; simp [lookupA]
      · simp only [lookupA, Ne.symm h, reduceIte, if_neg h]
    · by_cases h2 : k = a
      · rw [if_neg h1, if_pos h2]
        by_cases h : k' = k
        · subst h; simp [lookupA]
        · have ha : a ≠ k' := fun hh => h (hh ▸ h2).symm
          simp only [lookupA, Ne.symm h, ha, reduceIte, if_neg h]
      · rw [if_neg h1, if_neg h2]
        have hak : a ≠ k := fun hh => h2 hh.symm
        by_cases h : k' = k
        · subst h
          simp only [lookupA, hak, reduceIte, ih, if_pos rfl]
        · by_cases hp : a = k'
          · simp only [lookupA, hp, reduceIte, if_neg h]
          · simp only [lookupA, hp, reduceIte, ih, if_neg h]

theorem mem_tsInsert {store : List (Txid × Transaction)} {k : Txid}
    {v : Transaction} {p : Txid × Transaction} (h : p ∈ tsInsert store k v) :
    p = (k, v) ∨ p ∈ store := by
  induction store with
  | nil => simpa [tsInsert] using h
  | cons q rest ih =>
    unfold tsInsert at h
    by_cases h1 : k < q.1
    · rw [if_pos h1] at h
      rcases List.mem_cons.1 h with h2 | h2
      · exact Or.inl h2
      · exact Or.inr h2
    · by_cases h2 : k = q.1
      · rw [if_neg h1, if_pos h2] at h
        rcases List.mem_cons.1 h with h3 | h3
        · exact Or.inl h3
        · exact Or.inr (List.mem_cons_of_mem _ h3)
      · rw [if_neg h1, if_neg h2] at h
        rcases List.mem_cons.1 h with h3 | h3
        · exact Or.inr (h3 ▸ List.mem_cons_self _ _)
        · rcases ih h3 with h4 | h4
          · exact Or.inl h4
          · exact Or.inr (List.mem_cons_of_mem _ h4)

theorem lookupA_filterMapSelf {κ α : Type} [DecidableEq κ] (l : List κ)
    (f : κ → Option α) (k : κ) :
    lookupA (l.filterMap (fun x => (f x).map (fun t => (x, t)))) k =
      if k ∈ l then f k else none := by
  induction l with
  | nil => simp [lookupA]
  | cons x rest ih =>
    by_cases hx : x = k
    · subst hx
      cases hf : f x with
      | none =>
        rw [List.filterMap_cons, hf]
        simp only [Option.map_none']
        rw [ih, if_pos (List.mem_cons_self _ _), hf]
        by_cases hm : x ∈ rest
        · rw [if_pos hm]
        · rw [if_neg hm]
      | some t =>
        rw [List.filterMap_cons, hf]
        simp only [Option.map_some', lookupA, reduceIte]
        rw [if_pos (List.mem_cons_self _ _)]
    · have hkx : ¬ k = x := fun h => hx h.symm
      have hmem : (k ∈ x :: rest) ↔ (k ∈ rest) := by
        constructor
        · intro h
          rcases List.mem_cons.1 h with h | h
          · exact absurd h hkx
          · exact h
        · exact List.mem_cons_of_mem _
      cases hf : f x with
      | none =>
        rw [List.filterMap_cons, hf]
        simp only [Option.map_none']
        rw [ih]
        by_cases hm : k ∈ rest
        · rw [if_pos hm, if_pos (hmem.2 hm)]
        · rw [if_neg hm, if_neg (fun h => hm (hmem.1 h))]
      | some t =>
        rw [List.filterMap_cons, hf]
        simp only [Option.map_some', lookupA]
        rw [if_neg hx, ih]
        by_cases hm : k ∈ rest
        · rw [if_pos hm, if_pos (hmem.2 hm)]
        · rw [if_neg hm, if_neg (fun h => hm (hmem.1 h))]

/-! ## Phase-1 (admission) lemmas -/

theorem containsA_tsInsert (store : List (Txid × Transaction)) (k : Txid)
    (v : Transaction) (k' : Txid) (h : containsA store k' = true) :
    containsA (tsInsert store k v) k' = true := by
  unfold containsA at h ⊢
  rw [lookupA_tsInsert]
  by_cases hk : k' = k
  · rw [if_pos hk]; rfl
  · rw [if_neg hk]; exact h

theorem insertPhase_lookup_pres (ctx : Ctx) (txs : List Transaction) :
    ∀ (store : List (Txid × Transaction)) (ids : List Txid) (k : Txid)
      (v : Transaction), lookupA store k = some v →
      (∀ tx ∈ txs, ctx.txidOf tx = k → tx = v) →
      lookupA (insertPhase ctx txs store ids).1 k = some v := by
  induction txs with
  | nil => intro store ids k v h _; exact h
  | cons t rest ih =>
    intro store ids k v h hcl
    have hstep : lookupA (tsInsert store (ctx.txidOf t) t) k = some v := by
      rw [lookupA_tsInsert]
      by_cases hk : k = ctx.txidOf t
      · rw [if_pos hk, hcl t (List.mem_cons_self _ _) hk.symm]
      · rw [if_neg hk]; exact h
    have hcl2 : ∀ tx ∈ rest, ctx.txidOf tx = k → tx = v :=
      fun tx htx => hcl tx (List.mem_cons_of_mem _ htx)
    unfold insertPhase
    by_cases hc : containsA store (ctx.txidOf t) = true
    · rw [if_pos hc]; exact ih _ _ _ _ hstep hcl2
    · rw [if_neg hc]; exact ih _ _ _ _ hstep hcl2

theorem insertPhase_contains_mono (ctx : Ctx) (txs : List Transaction) :
    ∀ (store : List (Txid × Transaction)) (ids : List Txid) (k : Txid),
      containsA store k = true →
      containsA (insertPhase ctx txs store ids).1 k = true := by
  induction txs with
  | nil => intro store ids k h; exact h
  | cons t rest ih =>
    intro store ids k h
    have hstep := containsA_tsInsert store (ctx.txidOf t) t k h
    unfold insertPhase
    by_cases hc : containsA store (ctx.txidOf t) = true
    · rw [if_pos hc]; exact ih _ _ _ hstep
    · rw [if_neg hc]; exact ih _ _ _ hstep

theorem insertPhase_ids_contains (ctx : Ctx) (txs : List Transaction) :
    ∀ (store : List (Txid × Transaction)) (ids : List Txid),
      (∀ i ∈ ids, containsA store i = true) →
      ∀ i ∈ (insertPhase ctx txs store ids).2,
        containsA (insertPhase ctx txs store ids).1 i = true := by
  induction txs with
  | nil => intro store ids h i hi; exact h i hi
  | cons t rest ih =>
    intro store ids h
    unfold insertPhase
    by_cases hc : containsA store (ctx.txidOf t) = true
    · rw [if_pos hc]
      exact ih _ _ (fun i hi => containsA_tsInsert _ _ _ _ (h i hi))
    · rw [if_neg hc]
      apply ih
      intro i hi
      rcases List.mem_append.1 hi with hi1 | hi1
      · exact containsA_tsInsert _ _ _ _ (h i hi1)
      · have : i = ctx.txidOf t := List.mem_singleton.1 hi1
        subst this
        unfold containsA
        rw [lookupA_tsInsert, if_pos rfl]
        rfl

theorem insertPhase_ids_nodup (ctx : Ctx) (txs : List Transaction) :
    ∀ (store : List (Txid × Transaction)) (ids : List Txid), ids.Nodup →
      (∀ i ∈ ids, containsA store i = true) →
      (insertPhase ctx txs store ids).2.Nodup := by
  induction txs with
  | nil => intro store ids h _; exact h
  | cons t rest ih =>
    intro store ids h hall
    unfold insertPhase
    by_cases hc : containsA store (ctx.txidOf t) = true
    · rw [if_pos hc]
      exact ih _ _ h (fun i hi => containsA_tsInsert _ _ _ _ (hall i hi))
    · rw [if_neg hc]
      apply ih
      · rw [List.nodup_append]
        refine ⟨h, List.nodup_singleton _, ?_⟩
        intro a ha hb
        have : a = ctx.txidOf t := List.mem_singleton.1 hb
        subst this
        exact hc (hall _ ha)
      · intro i hi
        rcases List.mem_append.1 hi with hi1 | hi1
        · exact containsA_tsInsert _ _ _ _ (hall i hi1)
        · have : i = ctx.txidOf t := List.mem_singleton.1 hi1
          subst this
          unfold containsA
          rw [lookupA_tsInsert, if_pos rfl]
          rfl

/-! ## Phase-3 (indexing) structural lemmas -/

theorem indexTx_txstore (ctx : Ctx) (txos : List (OutPoint × TxOut))
    (st : Mempool) (txid : Txid) :
    (indexTx ctx txos st txid).1.txstore = st.txstore := by
  cases h1 : lookupA st.txstore txid with
  | none => simp [indexTx, h1]
  | some tx =>
    cases h2 : extract_tx_prevouts tx txos with
    | none => simp [indexTx, h1, h2]
    | some pv => simp [indexTx, h1, h2]

/-- `indexTx` reports success exactly when the stored transaction's prevouts
resolve. -/
theorem indexTx_snd (ctx : Ctx) (txos : List (OutPoint × TxOut))
    (st : Mempool) (txid : Txid) :
    (indexTx ctx txos st txid).2 = resolvedB txos st.txstore txid := by
  cases h1 : lookupA st.txstore txid with
  | none => simp [indexTx, resolvedB, h1]
  | some tx =>
    cases h2 : extract_tx_prevouts tx txos with
    | none => simp [indexTx, resolvedB, h1, h2]
    | some pv => simp [indexTx, resolvedB, h1, h2]

theorem foldl_addStep_txstore (ctx : Ctx) (txos : List (OutPoint × TxOut))
    (ids : List Txid) :
    ∀ (acc : Mempool × Nat),
      ((ids.foldl (addStep ctx txos) acc).1).txstore = acc.1.txstore := by
  induction ids with
  | nil => intro acc; rfl
  | cons i rest ih =>
    intro acc
    rw [List.foldl_cons, ih]
    exact indexTx_txstore ctx txos acc.1 i

theorem foldl_addStep_count (ctx : Ctx) (txos : List (OutPoint × TxOut))
    (ids : List Txid) :
    ∀ (st : Mempool) (c : Nat),
      (ids.foldl (addStep ctx txos) (st, c)).2 =
        c + ids.countP (resolvedB txos st.txstore) := by
  induction ids with
  | nil => intro st c; simp
  | cons i rest ih =>
    intro st c
    rw [List.foldl_cons, List.countP_cons]
    show (rest.foldl (addStep ctx txos) ((indexTx ctx txos st i).1, _)).2 = _
    rw [ih, indexTx_txstore, indexTx_snd]
    by_cases h : resolvedB txos st.txstore i = true
    · rw [h]; simp; omega
    · rw [Bool.eq_false_iff.2 h]; simp

theorem Mempool.add_txstore (ctx : Ctx) (st : Mempool) (txs : List Transaction) :
    (Mempool.add ctx st txs).1.txstore = Mempool.addStore ctx st txs := by
  unfold Mempool.add Mempool.addStore
  rw [foldl_addStep_txstore]

theorem Mempool.add_count (ctx : Ctx) (st : Mempool) (txs : List Transaction) :
    (Mempool.add ctx st txs).2 =
      (Mempool.addAdmitted ctx st txs).countP
        (resolvedB (Mempool.addTxos ctx st txs) (Mempool.addStore ctx st txs)) := by
  unfold Mempool.add Mempool.addAdmitted Mempool.addTxos Mempool.addStore
  rw [foldl_addStep_count]
  simp [Mempool.addAdmitted]

/-! ## Index-closure preservation (claim C1 infrastructure) -/

theorem indexTx_success (ctx : Ctx) (txos : List (OutPoint × TxOut))
    (st : Mempool) (t : Txid) (tx : Transaction) (pv : List (Nat × TxOut))
    (h1 : lookupA st.txstore t = some tx)
    (h2 : extract_tx_prevouts tx txos = some pv) :
    indexTx ctx txos st t =
      ({ st with
          feeinfo := insertA st.feeinfo t (TxFeeInfo.new ctx tx pv)
          history := (fundingPairs ctx t tx ++ spendingPairs ctx t tx pv).foldl
            (fun h pr => histPush h pr.1 pr.2) st.history
          edges := tx.input.enum.foldl
            (fun es p => insertA es p.2.previous_output (t, p.1)) st.edges
          recent := (({ txid := t
                        fee := (TxFeeInfo.new ctx tx pv).fee
                        vsize := (TxFeeInfo.new ctx tx pv).vsize } :
            TxOverview) :: st.recent).take ctx.recent_txs_size }, true) := by
  simp [indexTx, h1, h2]

theorem indexTx_skip (ctx : Ctx) (txos : List (OutPoint × TxOut))
    (st : Mempool) (t : Txid) (h : resolvedB txos st.txstore t = false) :
    indexTx ctx txos st t = (st, false) := by
  cases h1 : lookupA st.txstore t with
  | none => simp [indexTx, h1]
  | some tx =>
    cases h2 : extract_tx_prevouts tx txos with
    | none => simp [indexTx, h1, h2]
    | some pv =>
      exfalso
      simp [resolvedB, h1, h2] at h

theorem histPush_forall {P : TxHistoryInfo → Prop}
    (m : List (ScriptHash × List TxHistoryInfo)) (k : ScriptHash)
    (e : TxHistoryInfo) (hm : ∀ b ∈ m, ∀ x ∈ b.2, P x) (he : P e) :
    ∀ b ∈ histPush m k e, ∀ x ∈ b.2, P x := by
  intro b hb x hx
  unfold histPush at hb
  cases hbk : lookupA m k with
  | some bb =>
    rw [hbk] at hb
    rcases mem_insertA hb with h1 | h1
    · subst h1
      rcases List.mem_append.1 hx with h2 | h2
      · exact hm (k, bb) (lookupA_mem hbk) x h2
      · rw [List.mem_singleton.1 h2]; exact he
    · exact hm b h1 x hx
  | none =>
    rw [hbk] at hb
    rcases mem_insertA hb with h1 | h1
    · subst h1
      rw [List.mem_singleton.1 hx]; exact he
    · exact hm b h1 x hx

theorem foldl_histPush_forall {P : TxHistoryInfo → Prop}
    (l : List (ScriptHash × TxHistoryInfo)) :
    ∀ (m : List (ScriptHash × List TxHistoryInfo)),
      (∀ b ∈ m, ∀ x ∈ b.2, P x) → (∀ pr ∈ l, P pr.2) →
      ∀ b ∈ l.foldl (fun h pr => histPush h pr.1 pr.2) m, ∀ x ∈ b.2, P x := by
  induction l with
  | nil => intro m hm _ b hb x hx; exact hm b hb x hx
  | cons pr rest ih =>
    intro m hm hl
    rw [List.foldl_cons]
    exact ih _ (histPush_forall m pr.1 pr.2 hm (hl pr (List.mem_cons_self _ _)))
      (fun q hq => hl q (List.mem_cons_of_mem _ hq))

theorem foldl_insertA_forall {Q : OutPoint × (Txid × Nat) → Prop}
    (t : Txid) (l : List (Nat × TxIn)) :
    ∀ (es : List (OutPoint × (Txid × Nat))),
      (∀ p ∈ es, Q p) → (∀ pr ∈ l, Q (pr.2.previous_output, (t, pr.1))) →
      ∀ p ∈ l.foldl (fun es p => insertA es p.2.previous_output (t, p.1)) es, Q p := by
  induction l with
  | nil => intro es hes _ p hp; exact hes p hp
  | cons pr rest ih =>
    intro es hes hl
    rw [List.foldl_cons]
    apply ih
    · intro p hp
      rcases mem_insertA hp with h1 | h1
      · subst h1; exact hl pr (List.mem_cons_self _ _)
      · exact hes p h1
    · exact fun q hq => hl q (List.mem_cons_of_mem _ hq)

/-- Every history pair generated for txid `t` carries `t` as its entry txid. -/
theorem indexPairs_get_txid (ctx : Ctx) (t : Txid) (tx : Transaction)
    (pv : List (Nat × TxOut)) :
    ∀ pr ∈ fundingPairs ctx t tx ++ spendingPairs ctx t tx pv,
      pr.2.get_txid = t := by
  intro pr hpr
  rcases List.mem_append.1 hpr with h | h
  · rcases List.mem_map.1 h with ⟨p, _, hp⟩
    rw [← hp]
    rfl
  · rcases List.mem_map.1 h with ⟨p, _, hp⟩
    rw [← hp]
    rfl

/-- Preservation of both closure properties (stated against a fixed store)
through one `indexTx` step. -/
theorem indexTx_preserves_closed (ctx : Ctx) (txos : List (OutPoint × TxOut))
    (st : Mempool) (t : Txid)
    (hhc : ∀ b ∈ st.history, ∀ e ∈ b.2, containsA st.txstore e.get_txid = true)
    (hec : ∀ p ∈ st.edges, edgeOk st.txstore p.1 p.2.1 p.2.2)
    (ht : containsA st.txstore t = true) :
    (∀ b ∈ (indexTx ctx txos st t).1.history, ∀ e ∈ b.2,
      containsA st.txstore e.get_txid = true) ∧
    (∀ p ∈ (indexTx ctx txos st t).1.edges,
      edgeOk st.txstore p.1 p.2.1 p.2.2) := by
  cases h1 : lookupA st.txstore t with
  | none =>
    rw [indexTx_skip ctx txos st t (by simp [resolvedB, h1])]
    exact ⟨hhc, hec⟩
  | some tx =>
    cases h2 : extract_tx_prevouts tx txos with
    | none =>
      rw [indexTx_skip ctx txos st t (by simp [resolvedB, h1, h2])]
      exact ⟨hhc, hec⟩
    | some pv =>
      rw [indexTx_success ctx txos st t tx pv h1 h2]
      constructor
      · apply foldl_histPush_forall _ _ hhc
        intro pr hpr
        rw [indexPairs_get_txid ctx t tx pv pr hpr]
        exact ht
      · apply foldl_insertA_forall _ _ _ hec
        intro pr hpr
        unfold edgeOk
        rw [h1]
        have hg : tx.input[pr.1]? = some pr.2 :=
          List.mem_enum_iff_getElem?.1 hpr
        simp [List.get?_eq_getElem?, hg]

theorem noClash_lookup (ctx : Ctx) (store : List (Txid × Transaction))
    (txs : List Transaction) (hnc : noClash ctx store txs) {tx : Transaction}
    (htx : tx ∈ txs) {v : Transaction}
    (hv : lookupA store (ctx.txidOf tx) = some v) : tx = v := by
  have h := hnc tx htx
  rw [hv] at h
  exact h.symm

theorem foldl_addStep_closed (ctx : Ctx) (txos : List (OutPoint × TxOut))
    (ids : List Txid) :
    ∀ (st : Mempool) (c : Nat),
      (∀ u ∈ ids, containsA st.txstore u = true) →
      (∀ b ∈ st.history, ∀ e ∈ b.2, containsA st.txstore e.get_txid = true) →
      (∀ p ∈ st.edges, edgeOk st.txstore p.1 p.2.1 p.2.2) →
      (∀ b ∈ (ids.foldl (addStep ctx txos) (st, c)).1.history, ∀ e ∈ b.2,
          containsA st.txstore e.get_txid = true) ∧
      (∀ p ∈ (ids.foldl (addStep ctx txos) (st, c)).1.edges,
          edgeOk st.txstore p.1 p.2.1 p.2.2) := by
  induction ids with
  | nil => intro st c _ hh he; exact ⟨hh, he⟩
  | cons i rest ih =>
    intro st c hu hh he
    rw [List.foldl_cons]
    have hts := indexTx_txstore ctx txos st i
    have hstep := indexTx_preserves_closed ctx txos st i hh he
      (hu i (List.mem_cons_self _ _))
    have hres := ih (indexTx ctx txos st i).1
      (c + if (indexTx ctx txos st i).2 then 1 else 0)
      (fun u hu2 => by rw [hts]; exact hu u (List.mem_cons_of_mem _ hu2))
      (fun b hb e he2 => by rw [hts]; exact hstep.1 b hb e he2)
      (fun p hp => by rw [hts]; exact hstep.2 p hp)
    constructor
    · intro b hb e he2
      rw [← hts]
      exact hres.1 b hb e he2
    · intro p hp
      have := hres.2 p hp
      rw [hts] at this
      exact this

theorem add_preserves_indexClosed (ctx : Ctx) (st : Mempool)
    (txs : List Transaction) (hinv : st.indexClosed)
    (hnc : noClash ctx st.txstore txs) :
    (Mempool.add ctx st txs).1.indexClosed := by
  obtain ⟨hh, he⟩ := hinv
  have hu : ∀ u ∈ (insertPhase ctx txs st.txstore []).2,
      containsA (insertPhase ctx txs st.txstore []).1 u = true :=
    insertPhase_ids_contains ctx txs st.txstore [] (by intro i hi; cases hi)
  have hh1 : ∀ b ∈ st.history, ∀ e ∈ b.2,
      containsA (insertPhase ctx txs st.txstore []).1 e.get_txid = true :=
    fun b hb e he2 =>
      insertPhase_contains_mono ctx txs st.txstore [] _ (hh b hb e he2)
  have he1 : ∀ p ∈ st.edges,
      edgeOk (insertPhase ctx txs st.txstore []).1 p.1 p.2.1 p.2.2 := by
    intro p hp
    have h0 := he p hp
    unfold edgeOk at h0 ⊢
    cases hl : lookupA st.txstore p.2.1 with
    | none => rw [hl] at h0; simp at h0
    | some tx =>
      rw [hl] at h0
      have hpres : lookupA (insertPhase ctx txs st.txstore []).1 p.2.1 = some tx := by
        apply insertPhase_lookup_pres ctx txs st.txstore [] _ _ hl
        intro tx2 htx2 hid
        exact noClash_lookup ctx st.txstore txs hnc htx2 (hid ▸ hl)
      rw [hpres]
      exact h0
  constructor
  · intro b hb e he2
    rw [Mempool.add_txstore]
    unfold Mempool.add at hb
    have := (foldl_addStep_closed ctx _ _ _ 0 hu hh1 he1).1 b hb e he2
    exact this
  · intro p hp
    have hts := Mempool.add_txstore ctx st txs
    unfold Mempool.add at hp
    have := (foldl_addStep_closed ctx _ _ _ 0 hu hh1 he1).2 p hp
    rw [hts]
    exact this

theorem remove_preserves_indexClosed (st : Mempool) (ids : List Txid)
    (hinv : st.indexClosed) : (st.remove ids).indexClosed := by
  obtain ⟨hh, he⟩ := hinv
  constructor
  · intro b hb e he2
    have hb1 := List.mem_of_mem_filter hb
    rcases List.mem_map.1 hb1 with ⟨b0, hb0, hbeq⟩
    have he3 : e ∈ b0.2.filter (fun x => decide (x.get_txid ∉ ids)) := by
      rw [← hbeq] at he2; exact he2
    have he4 := List.mem_filter.1 he3
    have hnotin : e.get_txid ∉ ids := of_decide_eq_true he4.2
    show containsA (st.txstore.filter (fun p => decide (p.1 ∉ ids))) _ = true
    unfold containsA
    rw [lookupA_filterNotIn _ _ _ hnotin]
    exact hh b0 hb0 e he4.1
  · intro p hp
    have hp1 := List.mem_filter.1 hp
    have hnotin : p.2.1 ∉ ids := of_decide_eq_true hp1.2
    have h0 := he p hp1.1
    unfold edgeOk at h0 ⊢
    show (Option.map _ ((lookupA (st.txstore.filter
      (fun p => decide (p.1 ∉ ids))) p.2.1).bind _)) = _
    rw [lookupA_filterNotIn _ _ _ hnotin]
    exact h0

/-! ## Claim C1 -/

/-- C1: after any completed `add` or `remove`, every history entry's txid is
a key of txstore, and every edge `OutPoint → (txid, vin)` satisfies
`txstore[txid].inputs[vin].previous_output = key` with `txid ∈ txstore`.
Stated as preservation: a state satisfying the closure invariant still
satisfies it after `add` (under hash-consistency of the batch, `noClash` —
a collision of the txid hash would let `BTreeMap::insert` silently replace
an already-indexed transaction) and after `remove`. -/
theorem c1_index_closure_preserved (ctx : Ctx) (st : Mempool)
    (txs : List Transaction) (ids : List Txid)
    (hinv : st.indexClosed) (hnc : noClash ctx st.txstore txs) :
    (Mempool.add ctx st txs).1.indexClosed ∧ (st.remove ids).indexClosed :=
  ⟨add_preserves_indexClosed ctx st txs hinv hnc,
   remove_preserves_indexClosed st ids hinv⟩

/-- Witness for C1 at a concrete state with non-trivial history and edges. -/
theorem c1_index_closure_preserved_witness :
    (stS3.indexClosed ∧ noClash ctxW stS3.txstore [txT3]) ∧
    ((Mempool.add ctxW stS3 [txT3]).1.indexClosed ∧
      (stS3.remove [7]).indexClosed) := by
  have h1 : stS3.indexClosed := by
    unfold Mempool.indexClosed Mempool.histClosed Mempool.edgesClosed edgeOk
    decide
  have h2 : noClash ctxW stS3.txstore [txT3] := by
    unfold noClash
    decide
  exact ⟨⟨h1, h2⟩, c1_index_closure_preserved ctxW stS3 [txT3] [7] h1 h2⟩

/-! ## Claim C7 -/

theorem histPush_ne_nil (m : List (ScriptHash × List TxHistoryInfo))
    (k : ScriptHash) (e : TxHistoryInfo) (hm : ∀ b ∈ m, b.2 ≠ []) :
    ∀ b ∈ histPush m k e, b.2 ≠ [] := by
  intro b hb
  unfold histPush at hb
  cases hbk : lookupA m k with
  | some bb =>
    rw [hbk] at hb
    rcases mem_insertA hb with h1 | h1
    · subst h1; simp
    · exact hm b h1
  | none =>
    rw [hbk] at hb
    rcases mem_insertA hb with h1 | h1
    · subst h1; simp
    · exact hm b h1

theorem foldl_histPush_ne_nil (l : List (ScriptHash × TxHistoryInfo)) :
    ∀ (m : List (ScriptHash × List TxHistoryInfo)), (∀ b ∈ m, b.2 ≠ []) →
      ∀ b ∈ l.foldl (fun h pr => histPush h pr.1 pr.2) m, b.2 ≠ [] := by
  induction l with
  | nil => intro m hm b hb; exact hm b hb
  | cons pr rest ih =>
    intro m hm
    rw [List.foldl_cons]
    exact ih _ (histPush_ne_nil m pr.1 pr.2 hm)

theorem indexTx_ne_nil (ctx : Ctx) (txos : List (OutPoint × TxOut))
    (st : Mempool) (t : Txid) (hm : ∀ b ∈ st.history, b.2 ≠ []) :
    ∀ b ∈ (indexTx ctx txos st t).1.history, b.2 ≠ [] := by
  cases h1 : lookupA st.txstore t with
  | none =>
    rw [indexTx_skip ctx txos st t (by simp [resolvedB, h1])]
    exact hm
  | some tx =>
    cases h2 : extract_tx_prevouts tx txos with
    | none =>
      rw [indexTx_skip ctx txos st t (by simp [resolvedB, h1, h2])]
      exact hm
    | some pv =>
      rw [indexTx_success ctx txos st t tx pv h1 h2]
      exact foldl_histPush_ne_nil _ _ hm

theorem foldl_addStep_ne_nil (ctx : Ctx) (txos : List (OutPoint × TxOut))
    (ids : List Txid) :
    ∀ (acc : Mempool × Nat), (∀ b ∈ acc.1.history, b.2 ≠ []) →
      ∀ b ∈ (ids.foldl (addStep ctx txos) acc).1.history, b.2 ≠ [] := by
  induction ids with
  | nil => intro acc hm b hb; exact hm b hb
  | cons i rest ih =>
    intro acc hm
    rw [List.foldl_cons]
    exact ih _ (indexTx_ne_nil ctx txos acc.1 i hm)

/-- C7: neither `add` nor `remove` ever leaves an empty history bucket:
`remove` drops any bucket emptied by the retain pass, and `add` only creates
a bucket by immediately pushing an entry into it. -/
theorem c7_no_empty_buckets (ctx : Ctx) (st : Mempool)
    (txs : List Transaction) (ids : List Txid) (h : st.noEmptyBuckets) :
    (Mempool.add ctx st txs).1.noEmptyBuckets ∧
      (st.remove ids).noEmptyBuckets := by
  constructor
  · intro b hb
    unfold Mempool.add at hb
    exact foldl_addStep_ne_nil ctx _ _ _ (fun b0 hb0 => h b0 hb0) b hb
  · intro b hb
    have hb1 := (List.mem_filter.1 hb).2
    intro hnil
    rw [hnil] at hb1
    simp at hb1

/-- Witness for C7 at a state whose removal empties one bucket. -/
theorem c7_no_empty_buckets_witness :
    stS3.noEmptyBuckets ∧
    ((Mempool.add ctxW stS3 [txT3]).1.noEmptyBuckets ∧
      (stS3.remove [9]).noEmptyBuckets) := by
  have h1 : stS3.noEmptyBuckets := by
    unfold Mempool.noEmptyBuckets
    decide
  exact ⟨h1, c7_no_empty_buckets ctxW stS3 [txT3] [9] h1⟩

/-! ## Claim C2 -/

/-- C2 counterexample: after `add` ingests the single coinbase-sentinel
transaction `txCB`, `edges` is NOT empty — the edge loop of `add`
(mempool.rs:558-560) iterates every input unfiltered, so the sentinel
previous_output is inserted as an edge key mapping to `(txid, 0)`. -/
theorem c2_sentinel_edge_counterexample :
    lookupA (Mempool.add ctxW stEmpty [txCB]).1.edges
      { txid := 0, vout := 4294967295 } = some (7, 0) ∧
    (Mempool.add ctxW stEmpty [txCB]).1.edges ≠ [] := by
  constructor
  · decide
  · decide

/-- C2 (amended): `add` of a transaction whose single input is the coinbase
sentinel and whose one (spendable) output funds script S leaves the
transaction in txstore and its Funding entry in `history[hash(S)]`, and
`edges` contains exactly the sentinel previous_output mapped to
`(txid, 0)` (rather than being empty), and the transaction counts as
indexed. -/
theorem c2_coinbase_add_amended (ctx : Ctx) (tx : Transaction) (txi : TxIn)
    (o : TxOut) (hin : tx.input = [txi])
    (hnull : txi.previous_output = { txid := 0, vout := 4294967295 })
    (hsp : (ctx.spendableB o || ctx.index_unspendables) = true)
    (hout : tx.output = [o]) :
    (Mempool.add ctx stEmpty [tx]).1.txstore = [(ctx.txidOf tx, tx)] ∧
    lookupA (Mempool.add ctx stEmpty [tx]).1.history
      (ctx.compute_script_hash o.script_pubkey) =
      some [TxHistoryInfo.funding
        { txid := ctx.txidOf tx, vout := 0, value := o.value }] ∧
    (Mempool.add ctx stEmpty [tx]).1.edges =
      [({ txid := 0, vout := 4294967295 }, (ctx.txidOf tx, 0))] ∧
    (Mempool.add ctx stEmpty [tx]).2 = 1 := by
  simp [Mempool.add, insertPhase, containsA, lookupA, tsInsert,
    Mempool.get_prevouts, dedupFirst, dedupFirstAux, Mempool.lookup_txos,
    addStep, indexTx, extract_tx_prevouts, extractGo, has_prevout,
    OutPoint.isNull, hin, hout, hnull, hsp, fundingPairs, spendingPairs,
    histPush, insertA, TxFeeInfo.new, stEmpty]

/-- Witness for the amended C2 at the concrete coinbase transaction. -/
theorem c2_coinbase_add_amended_witness :
    (Mempool.add ctxW stEmpty [txCB]).1.txstore = [(ctxW.txidOf txCB, txCB)] ∧
    lookupA (Mempool.add ctxW stEmpty [txCB]).1.history
      (ctxW.compute_script_hash (5 : Script)) =
      some [TxHistoryInfo.funding
        { txid := ctxW.txidOf txCB, vout := 0, value := 50 }] ∧
    (Mempool.add ctxW stEmpty [txCB]).1.edges =
      [({ txid := 0, vout := 4294967295 }, (ctxW.txidOf txCB, 0))] ∧
    (Mempool.add ctxW stEmpty [txCB]).2 = 1 :=
  c2_coinbase_add_amended ctxW txCB
    { previous_output := { txid := 0, vout := 4294967295 },
      script_sig := 0, sequence := 0 }
    { value := 50, script_pubkey := 5, data := 0 } rfl rfl rfl rfl

/-! ## Claim C3 -/

theorem histPush_filter_t (m : List (ScriptHash × List TxHistoryInfo))
    (k : ScriptHash) (e : TxHistoryInfo) (t : Txid) (he : e.get_txid ≠ t)
    (sh : ScriptHash) :
    ((lookupA (histPush m k e) sh).getD []).filter
        (fun x => decide (x.get_txid = t)) =
      ((lookupA m sh).getD []).filter (fun x => decide (x.get_txid = t)) := by
  unfold histPush
  cases hbk : lookupA m k with
  | some bb =>
    rw [lookupA_insertA]
    by_cases hsk : sh = k
    · subst hsk
      rw [if_pos rfl, hbk]
      simp only [Option.getD_some, List.filter_append]
      have : [e].filter (fun x => decide (x.get_txid = t)) = [] := by
        simp [he]
      rw [this, List.append_nil]
    · rw [if_neg hsk]
  | none =>
    rw [lookupA_insertA]
    by_cases hsk : sh = k
    · subst hsk
      rw [if_pos rfl, hbk]
      simp [he]
    · rw [if_neg hsk]

theorem foldl_histPush_filter_t (t : Txid)
    (l : List (ScriptHash × TxHistoryInfo)) (hl : ∀ pr ∈ l, pr.2.get_txid ≠ t) :
    ∀ (m : List (ScriptHash × List TxHistoryInfo)) (sh : ScriptHash),
      ((lookupA (l.foldl (fun h pr => histPush h pr.1 pr.2) m) sh).getD
          []).filter (fun x => decide (x.get_txid = t)) =
        ((lookupA m sh).getD []).filter (fun x => decide (x.get_txid = t)) := by
  induction l with
  | nil => intro m sh; rfl
  | cons pr rest ih =>
    intro m sh
    rw [List.foldl_cons,
      ih (fun q hq => hl q (List.mem_cons_of_mem _ hq)),
      histPush_filter_t m pr.1 pr.2 t (hl pr (List.mem_cons_self _ _)) sh]

theorem foldl_insertA_lookup_t (u t : Txid) (hne : u ≠ t)
    (l : List (Nat × TxIn)) :
    ∀ (es : List (OutPoint × (Txid × Nat))) (op : OutPoint) (vin : Nat),
      lookupA (l.foldl (fun es p => insertA es p.2.previous_output (u, p.1)) es)
          op = some (t, vin) →
      lookupA es op = some (t, vin) := by
  induction l with
  | nil => intro es op vin h; exact h
  | cons pr rest ih =>
    intro es op vin h
    rw [List.foldl_cons] at h
    have h2 := ih _ op vin h
    rw [lookupA_insertA] at h2
    by_cases hop : op = pr.2.previous_output
    · rw [if_pos hop] at h2
      exact absurd (congrArg (fun q => q.1) (Option.some.inj h2)) hne
    · rw [if_neg hop] at h2
      exact h2

/-- One `indexTx` step neither adds history entries, edges, feeinfo nor
recent overviews for a txid `t` it is not successfully indexing. -/
theorem indexTx_preserves_tObs (ctx : Ctx) (txos : List (OutPoint × TxOut))
    (st : Mempool) (u t : Txid)
    (hcase : u = t → resolvedB txos st.txstore u = false) :
    (∀ sh, (indexTx ctx txos st u).1.histEntriesFor sh t =
      st.histEntriesFor sh t) ∧
    (∀ op vin, lookupA (indexTx ctx txos st u).1.edges op = some (t, vin) →
      lookupA st.edges op = some (t, vin)) ∧
    lookupA (indexTx ctx txos st u).1.feeinfo t = lookupA st.feeinfo t ∧
    (indexTx ctx txos st u).1.recentCountFor t ≤ st.recentCountFor t := by
  by_cases hres : resolvedB txos st.txstore u = true
  · have hut : u ≠ t := by
      intro he
      rw [hcase he] at hres
      cases hres
    cases h1 : lookupA st.txstore u with
    | none => rw [resolvedB, h1] at hres; cases hres
    | some tx =>
      cases h2 : extract_tx_prevouts tx txos with
      | none => simp [resolvedB, h1, h2] at hres
      | some pv =>
        rw [indexTx_success ctx txos st u tx pv h1 h2]
        refine ⟨?_, ?_, ?_, ?_⟩
        · intro sh
          unfold Mempool.histEntriesFor
          exact foldl_histPush_filter_t t _
            (fun pr hpr => by rw [indexPairs_get_txid ctx u tx pv pr hpr]; exact hut)
            st.history sh
        · intro op vin h
          exact foldl_insertA_lookup_t u t hut _ _ op vin h
        · show lookupA (insertA st.feeinfo u _) t = _
          rw [lookupA_insertA, if_neg (fun hh : t = u => hut hh.symm)]
        · unfold Mempool.recentCountFor
          apply le_trans (List.Sublist.countP_le _ (List.take_sublist _ _))
          rw [List.countP_cons]
          simp [fun hh : u = t => hut hh]
  · rw [indexTx_skip ctx txos st u (Bool.eq_false_iff.2 hres)]
    exact ⟨fun _ => rfl, fun _ _ h => h, rfl, Nat.le_refl _⟩

theorem foldl_addStep_tObs (ctx : Ctx) (txos : List (OutPoint × TxOut))
    (ids : List Txid) :
    ∀ (st : Mempool) (c : Nat) (t : Txid),
      resolvedB txos st.txstore t = false →
      (∀ sh, (ids.foldl (addStep ctx txos) (st, c)).1.histEntriesFor sh t =
        st.histEntriesFor sh t) ∧
      (∀ op vin,
        lookupA (ids.foldl (addStep ctx txos) (st, c)).1.edges op =
          some (t, vin) → lookupA st.edges op = some (t, vin)) ∧
      lookupA (ids.foldl (addStep ctx txos) (st, c)).1.feeinfo t =
        lookupA st.feeinfo t ∧
      (ids.foldl (addStep ctx txos) (st, c)).1.recentCountFor t ≤
        st.recentCountFor t := by
  induction ids with
  | nil => intro st c t _; exact ⟨fun _ => rfl, fun _ _ h => h, rfl, Nat.le_refl _⟩
  | cons i rest ih =>
    intro st c t hres
    rw [List.foldl_cons]
    have hstep := indexTx_preserves_tObs ctx txos st i t
      (fun he => by rw [he]; exact hres)
    have hres2 : resolvedB txos (indexTx ctx txos st i).1.txstore t = false := by
      rw [indexTx_txstore]; exact hres
    have hrest := ih (indexTx ctx txos st i).1
      (c + if (indexTx ctx txos st i).2 then 1 else 0) t hres2
    refine ⟨?_, ?_, ?_, ?_⟩
    · intro sh
      exact (hrest.1 sh).trans (hstep.1 sh)
    · intro op vin h
      exact hstep.2.1 op vin (hrest.2.1 op vin h)
    · exact (hrest.2.2.1).trans hstep.2.2.1
    · exact le_trans hrest.2.2.2 hstep.2.2.2

/-- C3: a transaction admitted by `add` whose non-sentinel prevouts fail to
resolve stays in txstore, but `add` records no history entry for it, no
spend edge naming it as spender, no feeinfo entry and no recent overview,
and it is not counted in the returned `count_indexed` (which counts exactly
the admitted txids that resolve). -/
theorem c3_partial_resolution_skip (ctx : Ctx) (st : Mempool)
    (txs : List Transaction) (t : Txid)
    (ht : t ∈ Mempool.addAdmitted ctx st txs)
    (hres : resolvedB (Mempool.addTxos ctx st txs)
      (Mempool.addStore ctx st txs) t = false) :
    containsA (Mempool.add ctx st txs).1.txstore t = true ∧
    (∀ sh, (Mempool.add ctx st txs).1.histEntriesFor sh t =
      st.histEntriesFor sh t) ∧
    (∀ op vin, lookupA (Mempool.add ctx st txs).1.edges op = some (t, vin) →
      lookupA st.edges op = some (t, vin)) ∧
    lookupA (Mempool.add ctx st txs).1.feeinfo t = lookupA st.feeinfo t ∧
    (Mempool.add ctx st txs).1.recentCountFor t ≤ st.recentCountFor t ∧
    (Mempool.add ctx st txs).2 = (Mempool.addAdmitted ctx st txs).countP
      (resolvedB (Mempool.addTxos ctx st txs)
        (Mempool.addStore ctx st txs)) := by
  have h1 : containsA (Mempool.add ctx st txs).1.txstore t = true := by
    rw [Mempool.add_txstore]
    exact insertPhase_ids_contains ctx txs st.txstore []
      (by intro i hi; cases hi) t ht
  have hobs := foldl_addStep_tObs ctx (Mempool.addTxos ctx st txs)
    (Mempool.addAdmitted ctx st txs)
    { st with txstore := Mempool.addStore ctx st txs } 0 t hres
  exact ⟨h1, hobs.1, hobs.2.1, hobs.2.2.1, hobs.2.2.2,
    Mempool.add_count ctx st txs⟩

/-- Witness for C3: the missing-parent scenario (spec S4) — `txT2` arrives
alone, its parent unknown to both mempool and chain. -/
theorem c3_partial_resolution_skip_witness :
    (9 ∈ Mempool.addAdmitted ctxW stEmpty [txT2] ∧
      resolvedB (Mempool.addTxos ctxW stEmpty [txT2])
        (Mempool.addStore ctxW stEmpty [txT2]) 9 = false) ∧
    (containsA (Mempool.add ctxW stEmpty [txT2]).1.txstore 9 = true ∧
      (∀ sh, (Mempool.add ctxW stEmpty [txT2]).1.histEntriesFor sh 9 =
        stEmpty.histEntriesFor sh 9) ∧
      (∀ op vin,
        lookupA (Mempool.add ctxW stEmpty [txT2]).1.edges op = some (9, vin) →
        lookupA stEmpty.edges op = some (9, vin)) ∧
      lookupA (Mempool.add ctxW stEmpty [txT2]).1.feeinfo 9 =
        lookupA stEmpty.feeinfo 9 ∧
      (Mempool.add ctxW stEmpty [txT2]).1.recentCountFor 9 ≤
        stEmpty.recentCountFor 9 ∧
      (Mempool.add ctxW stEmpty [txT2]).2 =
        (Mempool.addAdmitted ctxW stEmpty [txT2]).countP
          (resolvedB (Mempool.addTxos ctxW stEmpty [txT2])
            (Mempool.addStore ctxW stEmpty [txT2]))) := by
  have hmem : 9 ∈ Mempool.addAdmitted ctxW stEmpty [txT2] := by decide
  have hres : resolvedB (Mempool.addTxos ctxW stEmpty [txT2])
      (Mempool.addStore ctxW stEmpty [txT2]) 9 = false := by decide
  exact ⟨⟨hmem, hres⟩,
    c3_partial_resolution_skip ctxW stEmpty [txT2] 9 hmem hres⟩

/-! ## Claim C8 -/

theorem lookupA_append {κ α : Type} [DecidableEq κ] (l1 l2 : List (κ × α))
    (k : κ) :
    lookupA (l1 ++ l2) k =
      match lookupA l1 k with
      | some v => some v
      | none => lookupA l2 k := by
  induction l1 with
  | nil => rfl
  | cons p rest ih =>
    by_cases hp : p.1 = k
    · simp only [List.cons_append, lookupA, hp, reduceIte]
    · simp only [List.cons_append, lookupA, hp, reduceIte]
      rw [show rest.append l2 = rest ++ l2 from rfl, ih]

/-- C8: `lookup_txos` answers only requested outpoints; a requested outpoint
resolves to ChainQuery's confirmed answer when there is one, else to the
in-mempool output `txstore[op.txid].outputs[op.vout]` when that exists, and
is absent (not an error) when neither source knows it. -/
theorem c8_lookup_txos (ctx : Ctx) (st : Mempool) (requested : List OutPoint)
    (op : OutPoint) :
    (∀ p ∈ Mempool.lookup_txos ctx st requested, p.1 ∈ requested) ∧
    (op ∈ requested →
      lookupA (Mempool.lookup_txos ctx st requested) op =
        match ctx.chain_lookup op with
        | some t => some t
        | none => (lookupA st.txstore op.txid).bind
            (fun tx => tx.output.get? op.vout)) ∧
    (op ∉ requested → lookupA (Mempool.lookup_txos ctx st requested) op = none) := by
  refine ⟨?_, ?_, ?_⟩
  · intro p hp
    unfold Mempool.lookup_txos at hp
    rcases List.mem_append.1 hp with h | h
    · rcases List.mem_filterMap.1 h with ⟨x, hx, hfx⟩
      cases hc : ctx.chain_lookup x with
      | none => rw [hc] at hfx; cases hfx
      | some t =>
        rw [hc] at hfx
        have : (x, t) = p := Option.some.inj hfx
        rw [← this]
        exact hx
    · rcases List.mem_filterMap.1 h with ⟨x, hx, hfx⟩
      cases hc : (lookupA st.txstore x.txid).bind
          (fun tx => tx.output.get? x.vout) with
      | none => rw [hc] at hfx; cases hfx
      | some t =>
        rw [hc] at hfx
        have : (x, t) = p := Option.some.inj hfx
        rw [← this]
        exact List.mem_of_mem_filter hx
  · intro hmem
    unfold Mempool.lookup_txos
    rw [lookupA_append, lookupA_filterMapSelf, if_pos hmem]
    cases hc : ctx.chain_lookup op with
    | some t => rfl
    | none =>
      rw [lookupA_filterMapSelf]
      have hopf : op ∈ requested.filter
          (fun x => ! containsA (requested.filterMap
            (fun o => (ctx.chain_lookup o).map (fun t => (o, t)))) x) := by
        rw [List.mem_filter]
        refine ⟨hmem, ?_⟩
        unfold containsA
        rw [lookupA_filterMapSelf, if_pos hmem, hc]
        rfl
      rw [if_pos hopf]
  · intro hmem
    unfold Mempool.lookup_txos
    rw [lookupA_append, lookupA_filterMapSelf, if_neg hmem,
      lookupA_filterMapSelf]
    have : op ∉ requested.filter
        (fun x => ! containsA (requested.filterMap
          (fun o => (ctx.chain_lookup o).map (fun t => (o, t)))) x) := by
      intro hin
      exact hmem (List.mem_of_mem_filter hin)
    rw [if_neg this]

/-- Witness for C8: a request mixing a chain-confirmed outpoint, an
in-mempool one, and an unknown one. -/
theorem c8_lookup_txos_witness :
    (∀ p ∈ Mempool.lookup_txos ctxC stS3
        [{ txid := 100, vout := 0 }, { txid := 7, vout := 0 },
         { txid := 50, vout := 2 }], p.1 ∈
        [{ txid := 100, vout := 0 }, { txid := 7, vout := 0 },
         ({ txid := 50, vout := 2 } : OutPoint)]) ∧
    ({ txid := 7, vout := 0 } ∈
        [{ txid := 100, vout := 0 }, { txid := 7, vout := 0 },
         ({ txid := 50, vout := 2 } : OutPoint)] →
      lookupA (Mempool.lookup_txos ctxC stS3
        [{ txid := 100, vout := 0 }, { txid := 7, vout := 0 },
         { txid := 50, vout := 2 }]) { txid := 7, vout := 0 } =
        match ctxC.chain_lookup { txid := 7, vout := 0 } with
        | some t => some t
        | none => (lookupA stS3.txstore (7 : Txid)).bind
            (fun tx => tx.output.get? 0)) ∧
    (({ txid := 7, vout := 0 } : OutPoint) ∉
        [{ txid := 100, vout := 0 }, { txid := 7, vout := 0 },
         ({ txid := 50, vout := 2 } : OutPoint)] →
      lookupA (Mempool.lookup_txos ctxC stS3
        [{ txid := 100, vout := 0 }, { txid := 7, vout := 0 },
         { txid := 50, vout := 2 }]) { txid := 7, vout := 0 } = none) :=
  c8_lookup_txos ctxC stS3
    [{ txid := 100, vout := 0 }, { txid := 7, vout := 0 },
     { txid := 50, vout := 2 }] { txid := 7, vout := 0 }

/-! ## Claim C10 -/

/-- C10: a failed daemon fetch is silently swallowed — `add_by_txid`
returns success with the state untouched; and the missing-parents domain
error is returned exactly when the txid was absent, the fetch succeeded,
and `add([tx])` indexed nothing. -/
theorem c10_add_by_txid (ctx : Ctx) (st : Mempool)
    (fetch : Txid → Option Transaction) (txid : Txid) :
    (fetch txid = none → Mempool.add_by_txid ctx st fetch txid = (st, true)) ∧
    ((Mempool.add_by_txid ctx st fetch txid).2 = false ↔
      containsA st.txstore txid = false ∧
      ∃ tx, fetch txid = some tx ∧ (Mempool.add ctx st [tx]).2 = 0) := by
  constructor
  · intro hf
    unfold Mempool.add_by_txid
    by_cases hc : containsA st.txstore txid = true
    · rw [if_pos hc]
    · rw [if_neg hc, hf]
  · constructor
    · intro h
      unfold Mempool.add_by_txid at h
      by_cases hc : containsA st.txstore txid = true
      · rw [if_pos hc] at h; simp at h
      · rw [if_neg hc] at h
        split at h
        · simp at h
        · next tx hf =>
            split at h
            · next hz => exact ⟨Bool.eq_false_iff.mpr hc, tx, hf, hz⟩
            · simp at h
    · rintro ⟨hc, tx, hf, hz⟩
      unfold Mempool.add_by_txid
      rw [if_neg (by rw [hc]; simp), hf]
      simp [hz]

/-- Witness for C10: the fetch resolves `txT2`, whose parent is unknown, so
the missing-parents error is surfaced. -/
theorem c10_add_by_txid_witness :
    ((fun t => if t = (9 : Txid) then some txT2 else none) 9 = none →
      Mempool.add_by_txid ctxW stEmpty
        (fun t => if t = (9 : Txid) then some txT2 else none) 9 =
        (stEmpty, true)) ∧
    ((Mempool.add_by_txid ctxW stEmpty
        (fun t => if t = (9 : Txid) then some txT2 else none) 9).2 = false ↔
      containsA stEmpty.txstore 9 = false ∧
      ∃ tx, (fun t => if t = (9 : Txid) then some txT2 else none) 9 =
          some tx ∧ (Mempool.add ctxW stEmpty [tx]).2 = 0) :=
  c10_add_by_txid ctxW stEmpty
    (fun t => if t = (9 : Txid) then some txT2 else none) 9

/-! ## Claims C5 and C9: the history pipeline -/

theorem dedupFirstAux_spec {α : Type} [DecidableEq α] (l : List α) :
    ∀ seen, (dedupFirstAux seen l).Nodup ∧
      ∀ x ∈ dedupFirstAux seen l, x ∉ seen := by
  induction l with
  | nil =>
    intro seen
    exact ⟨List.nodup_nil, by intro x hx; cases hx⟩
  | cons a rest ih =>
    intro seen
    unfold dedupFirstAux
    by_cases ha : a ∈ seen
    · rw [if_pos ha]; exact ih seen
    · rw [if_neg ha]
      obtain ⟨hnd, hnotin⟩ := ih (a :: seen)
      constructor
      · rw [List.nodup_cons]
        exact ⟨fun hmem => (hnotin a hmem) (List.mem_cons_self _ _), hnd⟩
      · intro x hx
        rcases List.mem_cons.1 hx with h | h
        · subst h; exact ha
        · exact fun hxs => hnotin x h (List.mem_cons_of_mem _ hxs)

theorem dedupFirst_nodup {α : Type} [DecidableEq α] (l : List α) :
    (dedupFirst l).Nodup :=
  (dedupFirstAux_spec l []).1

theorem mem_dedupFirstAux {α : Type} [DecidableEq α] (l : List α) :
    ∀ seen x, x ∈ dedupFirstAux seen l ↔ x ∈ l ∧ x ∉ seen := by
  induction l with
  | nil => intro seen x; simp [dedupFirstAux]
  | cons a rest ih =>
    intro seen x
    unfold dedupFirstAux
    by_cases ha : a ∈ seen
    · rw [if_pos ha, ih seen x]
      constructor
      · exact fun h => ⟨List.mem_cons_of_mem _ h.1, h.2⟩
      · rintro ⟨h1, h2⟩
        rcases List.mem_cons.1 h1 with h | h
        · exact absurd (h ▸ ha) h2
        · exact ⟨h, h2⟩
    · rw [if_neg ha]
      constructor
      · intro h
        rcases List.mem_cons.1 h with h1 | h1
        · exact ⟨h1 ▸ List.mem_cons_self _ _, h1 ▸ ha⟩
        · have := (ih (a :: seen) x).1 h1
          exact ⟨List.mem_cons_of_mem _ this.1,
            fun hs => this.2 (List.mem_cons_of_mem _ hs)⟩
      · rintro ⟨h1, h2⟩
        rcases List.mem_cons.1 h1 with h | h
        · exact h ▸ List.mem_cons_self _ _
        · by_cases hxa : x = a
          · exact hxa ▸ List.mem_cons_self _ _
          · exact List.mem_cons_of_mem _ ((ih (a :: seen) x).2
              ⟨h, fun hs => (List.mem_cons.1 hs).elim hxa h2⟩)

theorem mem_dedupFirst {α : Type} [DecidableEq α] (l : List α) (x : α) :
    x ∈ dedupFirst l ↔ x ∈ l := by
  unfold dedupFirst
  rw [mem_dedupFirstAux]
  simp

theorem nodup_dropWhile_get {α : Type} [DecidableEq α] :
    ∀ (D : List α), D.Nodup → ∀ (k : Nat) (x : α), D.get? k = some x →
      D.dropWhile (fun t => decide (t ≠ x)) = D.drop k := by
  intro D
  induction D with
  | nil => intro _ k x hk; cases k <;> cases hk
  | cons a rest ih =>
    intro hnd k x hk
    cases k with
    | zero =>
      have hax : a = x := Option.some.inj hk
      subst hax
      rw [List.dropWhile_cons]
      simp
    | succ k =>
      have hx : rest.get? k = some x := hk
      have hmem : x ∈ rest := List.get?_mem hx
      have hnd2 := List.nodup_cons.1 hnd
      have hax : a ≠ x := fun he => hnd2.1 (he ▸ hmem)
      rw [List.dropWhile_cons, if_pos (by simpa using hax)]
      rw [ih hnd2.2 k x hx]
      rfl

theorem dropWhile_ne_nil_of_not_mem {α : Type} [DecidableEq α] (D : List α)
    (x : α) (hx : x ∉ D) :
    D.dropWhile (fun t => decide (t ≠ x)) = [] :=
  List.dropWhile_eq_nil_iff.2
    (fun _ hy => decide_eq_true (fun he => hx (he ▸ hy)))

theorem historyPipeline_none (entries : List TxHistoryInfo) (limit : Nat) :
    historyPipeline entries none limit =
      (dedupFirst (entries.map TxHistoryInfo.get_txid)).take limit := rfl

theorem historyPipeline_some (entries : List TxHistoryInfo) (limit k : Nat)
    (l : Txid)
    (hk : (dedupFirst (entries.map TxHistoryInfo.get_txid)).get? k = some l) :
    historyPipeline entries (some l) limit =
      ((dedupFirst (entries.map TxHistoryInfo.get_txid)).drop (k + 1)).take
        limit := by
  unfold historyPipeline
  show List.take limit (((dedupFirst
      (entries.map TxHistoryInfo.get_txid)).dropWhile
      (fun t => decide (t ≠ l))).drop 1) = _
  rw [nodup_dropWhile_get _ (dedupFirst_nodup _) k l hk, List.drop_drop]

theorem historyPipeline_absent (entries : List TxHistoryInfo) (limit : Nat)
    (l : Txid) (hl : l ∉ entries.map TxHistoryInfo.get_txid) :
    historyPipeline entries (some l) limit = [] := by
  unfold historyPipeline
  show List.take limit (((dedupFirst
      (entries.map TxHistoryInfo.get_txid)).dropWhile
      (fun t => decide (t ≠ l))).drop 1) = _
  rw [dropWhile_ne_nil_of_not_mem _ _
    (fun h => hl ((mem_dedupFirst _ _).1 h))]
  simp

/-- C5: `history` enumerates the bucket deduplicated by txid keeping first
occurrences (a Nodup sequence `D`): with no cursor it returns the first
`limit` txids' transactions; with a cursor at position `k` of `D` it skips
through that first occurrence; and two consecutive pages concatenate to a
prefix (`take (n + n)`) of `D` — hence no duplicates and no gaps. -/
theorem c5_history_pagination (st : Mempool) (sh : ScriptHash) (n : Nat) :
    (st.dedupTxids sh).Nodup ∧
    st.historyQuery sh none n =
      ((st.dedupTxids sh).take n).filterMap (lookupA st.txstore) ∧
    (∀ k l, (st.dedupTxids sh).get? k = some l →
      st.historyQuery sh (some l) n =
        (((st.dedupTxids sh).drop (k + 1)).take n).filterMap
          (lookupA st.txstore)) ∧
    (st.dedupTxids sh).take n ++ ((st.dedupTxids sh).drop n).take n =
      (st.dedupTxids sh).take (n + n) := by
  refine ⟨dedupFirst_nodup _, ?_, ?_, (List.take_add _ _ _).symm⟩
  · unfold Mempool.historyQuery Mempool.dedupTxids
    cases hb : lookupA st.history sh with
    | none => simp [dedupFirst, dedupFirstAux]
    | some entries =>
      show st.histMaterialize entries none n = _
      unfold Mempool.histMaterialize
      rw [historyPipeline_none]
      rfl
  · intro k l hk
    unfold Mempool.historyQuery
    unfold Mempool.dedupTxids at hk ⊢
    cases hb : lookupA st.history sh with
    | none =>
      rw [hb] at hk
      rw [show dedupFirst ((((none : Option (List TxHistoryInfo))).getD
        []).map TxHistoryInfo.get_txid) = [] from rfl] at hk
      cases k <;> cases hk
    | some entries =>
      rw [hb] at hk
      show st.histMaterialize entries (some l) n = _
      unfold Mempool.histMaterialize
      rw [historyPipeline_some entries n k l hk]
      rfl

/-- Witness for C5 on the S3 state (script 5 has a two-transaction
history). -/
theorem c5_history_pagination_witness :
    ((stS3.dedupTxids 5).get? 0 = some 7) ∧
    ((stS3.dedupTxids 5).Nodup ∧
      stS3.historyQuery 5 none 1 =
        ((stS3.dedupTxids 5).take 1).filterMap (lookupA stS3.txstore) ∧
      (∀ k l, (stS3.dedupTxids 5).get? k = some l →
        stS3.historyQuery 5 (some l) 1 =
          (((stS3.dedupTxids 5).drop (k + 1)).take 1).filterMap
            (lookupA stS3.txstore)) ∧
      (stS3.dedupTxids 5).take 1 ++ ((stS3.dedupTxids 5).drop 1).take 1 =
        (stS3.dedupTxids 5).take (1 + 1)) :=
  ⟨by decide, c5_history_pagination stS3 5 1⟩

/-- C9: a provided `last_seen_txid` that occurs nowhere in the script's
history makes the skip-until-cursor scan consume the whole deduplicated
sequence, so `history` and `history_group` both return the empty list. -/
theorem c9_unknown_cursor_empty (st : Mempool) (sh : ScriptHash)
    (shs : List ScriptHash) (l : Txid) (n : Nat)
    (h1 : l ∉ ((lookupA st.history sh).getD []).map TxHistoryInfo.get_txid)
    (h2 : l ∉ ((shs.filterMap
      (lookupA st.history)).flatten).map TxHistoryInfo.get_txid) :
    st.historyQuery sh (some l) n = [] ∧
    st.history_group shs (some l) n = [] := by
  constructor
  · unfold Mempool.historyQuery
    cases hb : lookupA st.history sh with
    | none => rfl
    | some entries =>
      show st.histMaterialize entries (some l) n = _
      unfold Mempool.histMaterialize
      rw [historyPipeline_absent entries n l (by rw [hb] at h1; exact h1)]
      rfl
  · unfold Mempool.history_group Mempool.histMaterialize
    rw [historyPipeline_absent _ n l h2]
    rfl

/-- Witness for C9: txid 1234 occurs in no bucket of the S3 state. -/
theorem c9_unknown_cursor_empty_witness :
    ((1234 : Txid) ∉ ((lookupA stS3.history 5).getD
        []).map TxHistoryInfo.get_txid ∧
      (1234 : Txid) ∉ (([5, 6].filterMap
        (lookupA stS3.history)).flatten).map TxHistoryInfo.get_txid) ∧
    (stS3.historyQuery 5 (some 1234) 10 = [] ∧
      stS3.history_group [5, 6] (some 1234) 10 = []) := by
  have ha : (1234 : Txid) ∉ ((lookupA stS3.history 5).getD
      []).map TxHistoryInfo.get_txid := by decide
  have hb : (1234 : Txid) ∉ (([5, 6].filterMap
      (lookupA stS3.history)).flatten).map TxHistoryInfo.get_txid := by decide
  exact ⟨⟨ha, hb⟩, c9_unknown_cursor_empty stS3 5 [5, 6] 1234 10 ha hb⟩

/-! ## Claim C6: txid paging -/

theorem txids_page_none (st : Mempool) (n : Nat) :
    st.txids_page n none = (st.txstore.map Prod.fst).take n := rfl

theorem txids_page_some (st : Mempool) (n : Nat) (s : Txid) :
    st.txids_page n (some s) =
      ((st.txstore.map Prod.fst).filter (fun k => decide (s < k))).take n := rfl

theorem sorted_filter_gt :
    ∀ (ks : List Txid), List.Pairwise (· < ·) ks →
      ∀ (k : Nat) (s : Txid), ks.get? k = some s →
        ks.filter (fun x => decide (s < x)) = ks.drop (k + 1) := by
  intro ks
  induction ks with
  | nil => intro _ k s hk; cases k <;> cases hk
  | cons a rest ih =>
    intro hp k s hk
    have hp2 := List.pairwise_cons.1 hp
    cases k with
    | zero =>
      have ha : a = s := Option.some.inj hk
      subst ha
      rw [List.filter_cons, if_neg (by simp), List.drop_succ_cons,
        List.drop_zero]
      exact List.filter_eq_self.2 (fun x hx => decide_eq_true (hp2.1 x hx))
    | succ k =>
      have hs : rest.get? k = some s := hk
      have has : a < s := hp2.1 s (List.get?_mem hs)
      rw [List.filter_cons,
        if_neg (by simp only [decide_eq_true_eq]; exact Nat.lt_asymm has),
        List.drop_succ_cons]
      exact ih hp2.2 k s hs

theorem txidsPages_eq (st : Mempool) (n : Nat) (hn : 0 < n)
    (hsort : List.Pairwise (· < ·) (st.txstore.map Prod.fst)) :
    ∀ (fuel m : Nat) (start : Option Txid),
      (st.txstore.map Prod.fst).length - m < fuel →
      st.txids_page n start = ((st.txstore.map Prod.fst).drop m).take n →
      st.txidsPages n fuel start = (st.txstore.map Prod.fst).drop m := by
  intro fuel
  induction fuel with
  | zero => intro m start h _; omega
  | succ fuel ih =>
    intro m start hfuel hpage
    unfold Mempool.txidsPages
    rw [hpage]
    by_cases hnil : (st.txstore.map Prod.fst).drop m = []
    · rw [hnil]
      simp
    · have hmlt : m < (st.txstore.map Prod.fst).length := by
        by_contra h
        exact hnil (List.drop_eq_nil_of_le (le_of_not_lt h))
      have hplen : (((st.txstore.map Prod.fst).drop m).take n).length =
          min n ((st.txstore.map Prod.fst).length - m) := by
        rw [List.length_take, List.length_drop]
      have hLpos : 0 < (((st.txstore.map Prod.fst).drop m).take n).length := by
        rw [hplen]; omega
      have hLle : (((st.txstore.map Prod.fst).drop m).take n).length ≤ n := by
        rw [hplen]; omega
      have hget : (((st.txstore.map Prod.fst).drop m).take n).getLast? =
          (st.txstore.map Prod.fst).get?
            (m + ((((st.txstore.map Prod.fst).drop m).take n).length - 1)) := by
        rw [List.getLast?_eq_getElem?, List.getElem?_take, if_pos (by omega),
          List.getElem?_drop, List.get?_eq_getElem?]
      cases hlast : (((st.txstore.map Prod.fst).drop m).take n).getLast? with
      | none =>
        exfalso
        rw [List.getLast?_eq_none_iff] at hlast
        rw [hlast] at hLpos
        simp at hLpos
      | some l =>
        have hkl : (st.txstore.map Prod.fst).get?
            (m + ((((st.txstore.map Prod.fst).drop m).take n).length - 1)) =
            some l := by rw [← hget, hlast]
        have hnext : st.txids_page n (some l) =
            ((st.txstore.map Prod.fst).drop
              (m + (((st.txstore.map Prod.fst).drop m).take n).length)).take
              n := by
          rw [txids_page_some, sorted_filter_gt _ hsort _ l hkl]
          congr 2
          omega
        have hdropLn : (st.txstore.map Prod.fst).drop
            (m + (((st.txstore.map Prod.fst).drop m).take n).length) =
            (st.txstore.map Prod.fst).drop (m + n) := by
          rcases Nat.lt_or_ge ((st.txstore.map Prod.fst).length - m) n with
            hcase | hcase
          · rw [List.drop_eq_nil_of_le (by rw [hplen]; omega),
              List.drop_eq_nil_of_le (by omega)]
          · have hLn : (((st.txstore.map Prod.fst).drop m).take n).length = n := by
              rw [hplen]; omega
            rw [hLn]
        have hrec := ih (m + n) (some l) (by omega) (by rw [hnext, hdropLn])
        simp only [hlast]
        rw [hrec, ← List.drop_drop, List.take_append_drop]

/-- C6: on the key-sorted txstore, `txids_page n none` is the first `n`
keys, `txids_page n (some s)` with `s` the key at index `k` is the next `n`
keys after it, and iterating pages from `None` through each page's last key
enumerates exactly `txstore.keys()` in ascending order (hence without
duplicates or gaps — the key list is Nodup). -/
theorem c6_txid_paging (st : Mempool) (n : Nat) (hn : 0 < n)
    (hsort : List.Pairwise (· < ·) (st.txstore.map Prod.fst)) :
    (st.txstore.map Prod.fst).Nodup ∧
    st.txids_page n none = (st.txstore.map Prod.fst).take n ∧
    (∀ k s, (st.txstore.map Prod.fst).get? k = some s →
      st.txids_page n (some s) =
        ((st.txstore.map Prod.fst).drop (k + 1)).take n) ∧
    st.txidsPages n ((st.txstore.map Prod.fst).length + 1) none =
      st.txstore.map Prod.fst := by
  refine ⟨List.Pairwise.imp Nat.ne_of_lt hsort, txids_page_none st n, ?_, ?_⟩
  · intro k s hk
    rw [txids_page_some, sorted_filter_gt _ hsort k s hk]
  · have := txidsPages_eq st n hn hsort
      ((st.txstore.map Prod.fst).length + 1) 0 none (by omega)
      (by rw [txids_page_none, List.drop_zero])
    rw [this, List.drop_zero]

/-- Witness for C6 on the S3 state (keys `[7, 9]`), page size 1. -/
theorem c6_txid_paging_witness :
    (0 < 1 ∧ List.Pairwise (· < ·) (stS3.txstore.map Prod.fst)) ∧
    ((stS3.txstore.map Prod.fst).Nodup ∧
      stS3.txids_page 1 none = (stS3.txstore.map Prod.fst).take 1 ∧
      (∀ k s, (stS3.txstore.map Prod.fst).get? k = some s →
        stS3.txids_page 1 (some s) =
          ((stS3.txstore.map Prod.fst).drop (k + 1)).take 1) ∧
      stS3.txidsPages 1 ((stS3.txstore.map Prod.fst).length + 1) none =
        stS3.txstore.map Prod.fst) := by
  have hs : List.Pairwise (· < ·) (stS3.txstore.map Prod.fst) := by
    rw [show stS3.txstore.map Prod.fst = [7, 9] from by decide]
    decide
  exact ⟨⟨Nat.one_pos, hs⟩, c6_txid_paging stS3 1 Nat.one_pos hs⟩

/-! ## Claim C4: utxo -/

theorem perm_insertSorted {α : Type} (le : α → α → Bool) (x : α) :
    ∀ (l : List α), (insertSorted le x l).Perm (x :: l) := by
  intro l
  induction l with
  | nil => exact List.Perm.refl _
  | cons y ys ih =>
    unfold insertSorted
    by_cases h : le x y = true
    · rw [if_pos h]
    · rw [if_neg h]
      exact ((ih.cons y).trans (List.Perm.swap x y ys))

theorem perm_sortByB {α : Type} (le : α → α → Bool) :
    ∀ (l : List α), (sortByB le l).Perm l := by
  intro l
  induction l with
  | nil => exact List.Perm.refl _
  | cons x xs ih =>
    unfold sortByB
    exact (perm_insertSorted le x (sortByB le xs)).trans (ih.cons x)

theorem mem_insertSorted {α : Type} (le : α → α → Bool) (x : α) (l : List α)
    (z : α) (h : z ∈ insertSorted le x l) : z = x ∨ z ∈ l := by
  have := (perm_insertSorted le x l).mem_iff.1 h
  exact List.mem_cons.1 this

theorem pairwise_insertSorted {α : Type} (le : α → α → Bool)
    (htot : ∀ a b, le a b = true ∨ le b a = true)
    (htr : ∀ a b c, le a b = true → le b c = true → le a c = true) (x : α) :
    ∀ (l : List α), List.Pairwise (fun a b => le a b = true) l →
      List.Pairwise (fun a b => le a b = true) (insertSorted le x l) := by
  intro l
  induction l with
  | nil => intro _; exact List.pairwise_singleton _ _
  | cons y ys ih =>
    intro hp
    have hp2 := List.pairwise_cons.1 hp
    unfold insertSorted
    by_cases h : le x y = true
    · rw [if_pos h]
      exact List.pairwise_cons.2
        ⟨fun z hz => (List.mem_cons.1 hz).elim (fun he => he ▸ h)
          (fun hz2 => htr x y z h (hp2.1 z hz2)), hp⟩
    · rw [if_neg h]
      have hyx : le y x = true := (htot x y).resolve_left h
      exact List.pairwise_cons.2
        ⟨fun z hz => (mem_insertSorted le x ys z hz).elim
          (fun he => he ▸ hyx) (fun hz2 => hp2.1 z hz2),
         ih hp2.2⟩

theorem pairwise_sortByB {α : Type} (le : α → α → Bool)
    (htot : ∀ a b, le a b = true ∨ le b a = true)
    (htr : ∀ a b c, le a b = true → le b c = true → le a c = true) :
    ∀ (l : List α), List.Pairwise (fun a b => le a b = true) (sortByB le l) := by
  intro l
  induction l with
  | nil => exact List.Pairwise.nil
  | cons x xs ih =>
    unfold sortByB
    exact pairwise_insertSorted le htot htr x _ ih

theorem utxoLe_total (a b : Utxo) : utxoLe a b = true ∨ utxoLe b a = true := by
  unfold utxoLe
  rcases Nat.lt_trichotomy a.txid b.txid with h | h | h
  · right; exact decide_eq_true (Or.inl h)
  · rcases Nat.le_total a.vout b.vout with h2 | h2
    · right; exact decide_eq_true (Or.inr ⟨h, h2⟩)
    · left; exact decide_eq_true (Or.inr ⟨h.symm, h2⟩)
  · left; exact decide_eq_true (Or.inl h)

theorem utxoLe_trans (a b c : Utxo) (h1 : utxoLe a b = true)
    (h2 : utxoLe b c = true) : utxoLe a c = true := by
  unfold utxoLe at h1 h2 ⊢
  have h1p := of_decide_eq_true h1
  have h2p := of_decide_eq_true h2
  apply decide_eq_true
  rcases h1p with h1p | ⟨h1e, h1v⟩
  · rcases h2p with h2p | ⟨h2e, h2v⟩
    · exact Or.inl (Nat.lt_trans h2p h1p)
    · exact Or.inl ((h2e ▸ h1p : _ < _))
  · rcases h2p with h2p | ⟨h2e, h2v⟩
    · exact Or.inl ((h1e ▸ h2p : _ < _))
    · exact Or.inr ⟨h2e.trans h1e, Nat.le_trans h2v h1v⟩

theorem findIdx?_first {α : Type} (p : α → Bool) :
    ∀ (l : List α) (pos : Nat) (x : α), l.get? pos = some x → p x = true →
      (∀ j y, j < pos → l.get? j = some y → p y = false) →
      l.findIdx? p = some pos := by
  intro l
  induction l with
  | nil => intro pos x h _ _; cases pos <;> cases h
  | cons a rest ih =>
    intro pos x h hp hmin
    cases pos with
    | zero =>
      have ha : a = x := Option.some.inj h
      rw [List.findIdx?_cons, if_pos (by rw [ha]; exact hp)]
    | succ pos =>
      have ha : p a = false := hmin 0 a (Nat.succ_pos _) rfl
      rw [List.findIdx?_cons, if_neg (by rw [ha]; simp), List.findIdx?_succ,
        ih pos x h hp (fun j y hj hy => hmin (j + 1) y (Nat.succ_lt_succ hj) hy)]
      rfl

theorem utxoCandidates_proj (ctx : Ctx) (st : Mempool) (sh : ScriptHash)
    (hres : fundingResolves ctx st sh = true) :
    (Mempool.utxoCandidates ctx st sh).map (fun u => (u.txid, u.vout, u.value)) =
      ((lookupA st.history sh).getD []).filterMap (fun e =>
        match e with
        | TxHistoryInfo.funding i =>
          if st.has_spend { txid := i.txid, vout := i.vout } then none
          else some (i.txid, i.vout, i.value)
        | TxHistoryInfo.spending _ => none) := by
  have hres2 : ∀ i, TxHistoryInfo.funding i ∈ (lookupA st.history sh).getD [] →
      (Mempool.lookup_txo ctx st { txid := i.txid, vout := i.vout }).isSome =
        true := by
    intro i hi
    have := List.all_eq_true.1 hres _ hi
    simpa using this
  unfold Mempool.utxoCandidates
  suffices hgen : ∀ (entries : List TxHistoryInfo),
      (∀ i, TxHistoryInfo.funding i ∈ entries →
        (Mempool.lookup_txo ctx st
          { txid := i.txid, vout := i.vout }).isSome = true) →
      ((entries.filterMap (fun e =>
          match e with
          | TxHistoryInfo.funding info =>
            (Mempool.lookup_txo ctx st
              { txid := info.txid, vout := info.vout }).map
              (fun txo => ({ txid := info.txid
                             vout := info.vout
                             value := info.value
                             data := txo.data } : Utxo))
          | TxHistoryInfo.spending _ => none)).filter
        (fun u : Utxo => ! st.has_spend { txid := u.txid, vout := u.vout })).map
        (fun u : Utxo => (u.txid, u.vout, u.value)) =
      entries.filterMap (fun e =>
        match e with
        | TxHistoryInfo.funding i =>
          if st.has_spend { txid := i.txid, vout := i.vout } then none
          else some (i.txid, i.vout, i.value)
        | TxHistoryInfo.spending _ => none) by
    exact hgen _ hres2
  intro entries
  induction entries with
  | nil => intro _; rfl
  | cons e rest ih =>
    intro hr
    have ihr := ih (fun i hi => hr i (List.mem_cons_of_mem _ hi))
    cases e with
    | spending s =>
      simp only [List.filterMap_cons]
      exact ihr
    | funding i =>
      have hsome := hr i (List.mem_cons_self _ _)
      rcases Option.isSome_iff_exists.1 hsome with ⟨txo, htxo⟩
      simp only [List.filterMap_cons, htxo, Option.map_some']
      rw [List.filter_cons]
      by_cases hspend : st.has_spend { txid := i.txid, vout := i.vout } = true
      · rw [if_neg (by simp [hspend]), if_pos hspend]
        exact ihr
      · have hspend2 : st.has_spend { txid := i.txid, vout := i.vout } = false :=
          Bool.eq_false_iff.2 hspend
        rw [if_pos (by simp [hspend2]), if_neg hspend]
        simp only [List.map_cons]
        rw [ihr]

/-- C4: `utxo` serves, in txid-descending then vout-descending order, exactly
the funding entries of the script's history whose outpoints are not edge
keys (stated via the candidate permutation, the sortedness of the page
source, and the candidate projection, under resolvability of the funding
entries, which the closure invariant guarantees); the cursor returns the
slice strictly after the first occurrence of `after_outpoint` when it
occurs, the first `limit` items when it does not, and never more than
`limit` items. -/
theorem c4_utxo (ctx : Ctx) (st : Mempool) (sh : ScriptHash)
    (after_outpoint : Option OutPoint) (limit : Nat)
    (hres : fundingResolves ctx st sh = true) :
    (Mempool.utxoSorted ctx st sh).Perm (Mempool.utxoCandidates ctx st sh) ∧
    List.Pairwise (fun a b => utxoLe a b = true)
      (Mempool.utxoSorted ctx st sh) ∧
    (Mempool.utxoCandidates ctx st sh).map
        (fun u => (u.txid, u.vout, u.value)) =
      ((lookupA st.history sh).getD []).filterMap (fun e =>
        match e with
        | TxHistoryInfo.funding i =>
          if st.has_spend { txid := i.txid, vout := i.vout } then none
          else some (i.txid, i.vout, i.value)
        | TxHistoryInfo.spending _ => none) ∧
    Mempool.utxo ctx st sh none limit =
      (Mempool.utxoSorted ctx st sh).take limit ∧
    (∀ ap pos u, (Mempool.utxoSorted ctx st sh).get? pos = some u →
      u.txid = ap.txid ∧ u.vout = ap.vout →
      (∀ j v, j < pos → (Mempool.utxoSorted ctx st sh).get? j = some v →
        ¬(v.txid = ap.txid ∧ v.vout = ap.vout)) →
      Mempool.utxo ctx st sh (some ap) limit =
        ((Mempool.utxoSorted ctx st sh).drop (pos + 1)).take limit) ∧
    (∀ ap, (∀ u ∈ Mempool.utxoSorted ctx st sh,
        ¬(u.txid = ap.txid ∧ u.vout = ap.vout)) →
      Mempool.utxo ctx st sh (some ap) limit =
        (Mempool.utxoSorted ctx st sh).take limit) ∧
    (Mempool.utxo ctx st sh after_outpoint limit).length ≤ limit := by
  refine ⟨perm_sortByB utxoLe _,
    pairwise_sortByB utxoLe utxoLe_total utxoLe_trans _,
    utxoCandidates_proj ctx st sh hres, rfl, ?_, ?_, ?_⟩
  · intro ap pos u hget hmatch hmin
    have hfind : (Mempool.utxoSorted ctx st sh).findIdx?
        (fun u => decide (u.txid = ap.txid) && decide (u.vout = ap.vout)) =
        some pos := by
      apply findIdx?_first _ _ pos u hget
      · simp [hmatch.1, hmatch.2]
      · intro j v hj hv
        have := hmin j v hj hv
        simp only [Bool.and_eq_false_iff, decide_eq_false_iff_not]
        by_cases h1 : v.txid = ap.txid
        · exact Or.inr (fun h2 => this ⟨h1, h2⟩)
        · exact Or.inl h1
    simp only [Mempool.utxo, hfind]
  · intro ap hnone
    have hfind : (Mempool.utxoSorted ctx st sh).findIdx?
        (fun u => decide (u.txid = ap.txid) && decide (u.vout = ap.vout)) =
        none := by
      rw [List.findIdx?_eq_none_iff]
      intro u hu
      have := hnone u hu
      simp only [Bool.and_eq_false_iff, decide_eq_false_iff_not]
      by_cases h1 : u.txid = ap.txid
      · exact Or.inr (fun h2 => this ⟨h1, h2⟩)
      · exact Or.inl h1
    simp only [Mempool.utxo, hfind]
  · cases after_outpoint with
    | none => exact List.length_take_le _ _
    | some ap =>
      cases hfind : (Mempool.utxoSorted ctx st sh).findIdx?
          (fun u => decide (u.txid = ap.txid) && decide (u.vout = ap.vout)) with
      | none =>
        simp only [Mempool.utxo, hfind]
        exact List.length_take_le _ _
      | some pos =>
        simp only [Mempool.utxo, hfind]
        exact List.length_take_le _ _

/-- Witness for C4 on the S3 state, script 6, cursor `(9, 0)`. -/
theorem c4_utxo_witness :
    fundingResolves ctxW stS3 6 = true ∧
    ((Mempool.utxoSorted ctxW stS3 6).Perm (Mempool.utxoCandidates ctxW stS3 6) ∧
    List.Pairwise (fun a b => utxoLe a b = true)
      (Mempool.utxoSorted ctxW stS3 6) ∧
    (Mempool.utxoCandidates ctxW stS3 6).map
        (fun u => (u.txid, u.vout, u.value)) =
      ((lookupA stS3.history 6).getD []).filterMap (fun e =>
        match e with
        | TxHistoryInfo.funding i =>
          if stS3.has_spend { txid := i.txid, vout := i.vout } then none
          else some (i.txid, i.vout, i.value)
        | TxHistoryInfo.spending _ => none) ∧
    Mempool.utxo ctxW stS3 6 none 5 =
      (Mempool.utxoSorted ctxW stS3 6).take 5 ∧
    (∀ ap pos u, (Mempool.utxoSorted ctxW stS3 6).get? pos = some u →
      u.txid = ap.txid ∧ u.vout = ap.vout →
      (∀ j v, j < pos → (Mempool.utxoSorted ctxW stS3 6).get? j = some v →
        ¬(v.txid = ap.txid ∧ v.vout = ap.vout)) →
      Mempool.utxo ctxW stS3 6 (some ap) 5 =
        ((Mempool.utxoSorted ctxW stS3 6).drop (pos + 1)).take 5) ∧
    (∀ ap, (∀ u ∈ Mempool.utxoSorted ctxW stS3 6,
        ¬(u.txid = ap.txid ∧ u.vout = ap.vout)) →
      Mempool.utxo ctxW stS3 6 (some ap) 5 =
        (Mempool.utxoSorted ctxW stS3 6).take 5) ∧
    (Mempool.utxo ctxW stS3 6 (some { txid := 9, vout := 0 }) 5).length ≤ 5) := by
  have h : fundingResolves ctxW stS3 6 = true := by decide
  exact ⟨h, c4_utxo ctxW stS3 6 (some { txid := 9, vout := 0 }) 5 h⟩
